import Mathlib

/-!
Verification of the `ical_feed` Home Assistant integration
(`custom_components/ical_feed`), a plugin that republishes calendar
entities as an iCal subscription feed over HTTP.

The Python modules `http.py` and `util.py` are shallowly embedded below.
Pure functions become Lean functions; the per-request handler state
(config entries, feed cache) is passed explicitly.  Machine-level detail
that the properties do not depend on is modelled as follows:

* instants (UTC datetimes, monotonic clock readings) are `Int`;
* external collaborators (the `slugify` helper, `hashlib.sha256`,
  `email.utils.parsedate_to_datetime`, `homeassistant.util.dt`
  parsing) are parameters of the embedded functions, or small
  executable models whose doc comments say so;
* Python strings are `String` or `List Char`; `str.replace` with a
  single-character needle is the character-wise substitution.
-/

namespace ICalFeed

/-- Python truthiness of an optional string (`if s := d.get(k):`):
`None` and the empty string are falsy. -/
def truthy : Option String → Option String
  | none => none
  | some s => if s = "" then none else some s

/-- The parts of a Home Assistant `ConfigEntry` that the feed code reads:
`entry.entry_id`, `entry.title` and `entry.data.get(CONF_SECRET)`
(absent or non-string secrets are `none`). -/
structure ConfigEntry where
  entryId : String
  title : String
  secret : Option String
deriving DecidableEq

/-! ## util.get_feed_slug (util.py lines 51-57) -/

/-- `get_feed_slug`: slug from `slugify(entry.title or "ical_feed")`,
falling back to `entry.entry_id` when the slug is empty or `"unknown"`.
`slugify` is the external `homeassistant.util.slugify`, a parameter here. -/
def getFeedSlug (slugify : String → String) (e : ConfigEntry) : String :=
  let title := if e.title = "" then "ical_feed" else e.title
  let slug := slugify title
  if slug = "" ∨ slug = "unknown" then e.entryId else slug

/-! ## Access resolution (http.py `ICalFeedView.get` lines 70-90) -/

/-- The scan over `entries.values()`: the first candidate whose
`data.get(CONF_SECRET)` is a string equal to the path secret
(`secrets.compare_digest` on equal strings is string equality;
its constant-time execution is not observable in this embedding). -/
def findEntryBySecret (entries : List ConfigEntry) (secret : String) : Option ConfigEntry :=
  entries.find? fun c =>
    match c.secret with
    | some s => s == secret
    | none => false

/-- Outcome of the access-resolution part of the handler: either the
uniform `HTTPNotFound` or the resolved entry that the handler proceeds
with. -/
inductive AccessOutcome where
  | notFound
  | feed (e : ConfigEntry)
deriving DecidableEq

/-- Lines 70-90 of `ICalFeedView.get`: an empty entry table, a secret
matching no entry, or a slug mismatch on the matched entry all raise the
same bare `web.HTTPNotFound`; otherwise the handler proceeds with the
matched entry.  (The `domain_data`/`entries` emptiness guards of lines
70-76 coincide with `findEntryBySecret [] _ = none`.) -/
def resolveAccess (slugify : String → String) (entries : List ConfigEntry)
    (secret feed : String) : AccessOutcome :=
  match findEntryBySecret entries secret with
  | none => .notFound
  | some e => if feed = getFeedSlug slugify e then .feed e else .notFound

/-! ## RFC5545 escaping (http.py `_escape_value` lines 281-288) -/

/-- Python `str.replace` with a one-character needle: every occurrence
of `pat` becomes `rep` (occurrences of a single character cannot
overlap, so this character-wise map is exactly `str.replace`). -/
def replace1 (pat : Char) (rep : List Char) (l : List Char) : List Char :=
  l.flatMap fun c => if c = pat then rep else [c]

/-- `_escape_value`: `text.replace("\\", "\\\\").replace("\n", "\\n")
.replace(",", "\\,").replace(";", "\\;")` — backslash first, then
newline (which becomes backslash + letter `n`), then comma, then
semicolon. -/
def escapeValue (l : List Char) : List Char :=
  replace1 ';' ['\\', ';']
    (replace1 ',' ['\\', ',']
      (replace1 '\n' ['\\', 'n']
        (replace1 '\\' ['\\', '\\'] l)))

/-- Single simultaneous pass equivalent to `_escape_value` (used to
state that the sequential substitutions do not double-escape). -/
def escapeCharRFC (c : Char) : List Char :=
  if c = '\\' then ['\\', '\\']
  else if c = '\n' then ['\\', 'n']
  else if c = ',' then ['\\', ',']
  else if c = ';' then ['\\', ';']
  else [c]

/-- The escaping rule as the claim words it: each of the four
characters is escaped by PREFIXING it with a backslash. -/
def claimEscapeChar (c : Char) : List Char :=
  if c = '\\' ∨ c = '\n' ∨ c = ',' ∨ c = ';' then ['\\', c] else [c]

/-! ## Feed cache (http.py lines 45-54, 406-432) -/

/-- `_FeedCacheEntry`: `last_modified` and `expires_at` are instants
(`datetime` resp. `time.monotonic()` float), modelled as `Int`. -/
structure FeedCacheEntry where
  payload : String
  etag : String
  lastModified : Int
  expiresAt : Int
  configHash : String
deriving DecidableEq

/-- `hass.data[DOMAIN][DATA_CACHE]`: a dict keyed by `entry_id`,
modelled as an association list whose first hit wins. -/
def FeedCache := List (String × FeedCacheEntry)

/-- Dict lookup `cache.get(entry_id)`. -/
def cacheFind (cache : FeedCache) (entryId : String) : Option FeedCacheEntry :=
  (cache.find? (fun p => p.1 == entryId)).map (·.2)

/-- `_get_cached_feed` (lines 406-421): `None` when the entry is
missing, when its `config_hash` differs, or when it is expired and
`allow_expired` is not set.  (The `domain_data` guard of line 410-412
coincides with lookup in an empty cache.) -/
def getCachedFeed (cache : FeedCache) (entryId configHash : String)
    (allowExpired : Bool) (mono : Int) : Option FeedCacheEntry :=
  match cacheFind cache entryId with
  | none => none
  | some cached =>
    if cached.configHash ≠ configHash then none
    else if ¬allowExpired ∧ cached.expiresAt ≤ mono then none
    else some cached

/-- `_set_cached_feed` (lines 424-432): dict assignment, last write
wins. -/
def setCachedFeed (cache : FeedCache) (entryId : String) (e : FeedCacheEntry) : FeedCache :=
  (entryId, e) :: cache.filter (fun p => p.1 ≠ entryId)

/-! ## Validators and regeneration (http.py lines 119-161, 363-375) -/

/-- `_CACHE_TTL = 30.0`. -/
def cacheTTL : Int := 30

/-- `_etag_for_payload` (lines 363-366): a quoted hex digest of the
payload.  `sha` stands for `hashlib.sha256(· .encode()).hexdigest()`. -/
def etagForPayload (sha : String → String) (payload : String) : String :=
  "\"" ++ sha payload ++ "\""

/-- The response headers built by `_build_response_headers`
(lines 369-375); `Last-Modified` is kept as the instant it formats. -/
structure ResponseHeaders where
  etag : String
  lastModified : Int
  cacheControl : String
deriving DecidableEq

def buildResponseHeaders (etag : String) (lastModified : Int) : ResponseHeaders :=
  { etag := etag, lastModified := lastModified,
    cacheControl := "private, max-age=0, must-revalidate" }

/-- The regeneration path of `ICalFeedView.get` (lines 102-104 and
135-152): look up the cache with `allow_expired=True`, compute the new
etag, carry over `last_modified` exactly when the cached etag equals
the new one, store the new entry and build the response headers. -/
def regenerateFeed (sha : String → String) (cache : FeedCache)
    (entryId configHash payload : String) (now mono : Int) :
    FeedCacheEntry × ResponseHeaders × FeedCache :=
  let cached := getCachedFeed cache entryId configHash true mono
  let etag := etagForPayload sha payload
  let lastModified :=
    match cached with
    | some c => if c.etag = etag then c.lastModified else now
    | none => now
  let entry : FeedCacheEntry :=
    { payload := payload, etag := etag, lastModified := lastModified,
      expiresAt := mono + cacheTTL, configHash := configHash }
  (entry, buildResponseHeaders etag lastModified, setCachedFeed cache entryId entry)

/-! ## Conditional requests (http.py `_etag_matches` lines 378-385,
`_is_not_modified` lines 388-403) -/

/-- Python `str.strip()` whitespace (the ASCII part; the further
Unicode spaces Python also strips do not occur in HTTP headers). -/
def isPySpace (c : Char) : Bool :=
  c = ' ' ∨ c = '\t' ∨ c = '\n' ∨ c = '\r' ∨ c = '\x0b' ∨ c = '\x0c'

/-- Python `s.strip()`. -/
def pyStrip (s : String) : String :=
  ⟨((s.data.dropWhile isPySpace).reverse.dropWhile isPySpace).reverse⟩

/-- Split a character list on a separator (declared early for the
header and URL helpers; Python `str.split(sep)`). -/
def splitChar (sep : Char) : List Char → List (List Char)
  | [] => [[]]
  | c :: rest =>
    match splitChar sep rest with
    | [] => if c = sep then [[], []] else [[c]]
    | h :: t => if c = sep then [] :: h :: t else (c :: h) :: t

/-- `_etag_matches`: empty header never matches, a stripped `*` always
matches, otherwise the header is split on commas, each part stripped,
and the etag must appear verbatim. -/
def etagMatches (headerValue etag : String) : Bool :=
  if headerValue = "" then false
  else if pyStrip headerValue = "*" then true
  else ((splitChar ',' headerValue.data).map (fun p => pyStrip ⟨p⟩)).contains etag

/-- `_is_not_modified`.  `inm`/`ims` are the `If-None-Match` and
`If-Modified-Since` headers (`none` when absent).  `phd` models
`email.utils.parsedate_to_datetime` followed by the UTC normalization
of lines 399-401: it yields the UTC instant an HTTP date denotes, or
`none` when parsing raises.  Note the fall-through: a present but
non-matching `If-None-Match` does NOT return early; the code continues
to the `If-Modified-Since` check. -/
def isNotModified (phd : String → Option Int) (inm ims : Option String)
    (etag : String) (lastModified : Int) : Bool :=
  let imsResult :=
    match truthy ims with
    | some v =>
      match phd v with
      | none => false
      | some since => lastModified ≤ since
    | none => false
  match truthy inm with
  | some v => if etagMatches v etag then true else imsResult
  | none => imsResult

/-- The conditional-request decision exactly as the claim words it: with
an `If-None-Match` header present the decision is made from it alone,
and `If-Modified-Since` is consulted only when no `If-None-Match`
header is present. -/
def claimNotModified (phd : String → Option Int) (inm ims : Option String)
    (etag : String) (lastModified : Int) : Bool :=
  match inm with
  | some v => (pyStrip v = "*") || ((splitChar ',' v.data).map (fun p => pyStrip ⟨p⟩)).contains etag
  | none =>
    match ims with
    | some v =>
      match phd v with
      | none => false
      | some since => lastModified ≤ since
    | none => false

/-! ## Datetimes

Python `datetime` values are modelled by their calendar fields plus an
optional fixed UTC offset in minutes (`tzinfo`); `none` is a naive
datetime.  Instants are integer seconds relative to the Unix epoch,
obtained through the standard civil-calendar day count. -/

structure PyDatetime where
  year : Int
  month : Nat
  day : Nat
  hour : Nat
  minute : Nat
  second : Nat
  tz : Option Int
deriving DecidableEq

/-- Days between a civil date and 1970-01-01 (proleptic Gregorian);
`/` and `%` on `Int` here are Euclidean, which agrees with Python's
floor division for the positive divisors used. -/
def daysFromCivil (y : Int) (m d : Nat) : Int :=
  let y' : Int := if m ≤ 2 then y - 1 else y
  let era : Int := y' / 400
  let yoe : Int := y' - era * 400
  let mp : Nat := if 2 < m then m - 3 else m + 9
  let doy : Int := (((153 * mp + 2) / 5 : Nat) : Int) + (d : Int) - 1
  let doe : Int := yoe * 365 + yoe / 4 - yoe / 100 + doy
  era * 146097 + doe - 719468

/-- Inverse of `daysFromCivil`: the civil date of an epoch day count. -/
def civilFromDays (z : Int) : Int × Nat × Nat :=
  let z' := z + 719468
  let era := z' / 146097
  let doe := (z' - era * 146097).toNat
  let yoe := (doe - doe / 1460 + doe / 36524 - doe / 146096) / 365
  let y : Int := era * 400 + (yoe : Int)
  let doy := doe - (365 * yoe + yoe / 4 - yoe / 100)
  let mp := (5 * doy + 2) / 153
  let d := doy - (153 * mp + 2) / 5 + 1
  let m := if mp < 10 then mp + 3 else mp - 9
  (if m ≤ 2 then y + 1 else y, m, d)

/-- The instant a `PyDatetime` denotes, in epoch seconds: aware values
subtract their UTC offset, naive values are taken at face value (this
is how Python orders datetimes of like awareness). -/
def toSeconds (d : PyDatetime) : Int :=
  daysFromCivil d.year d.month d.day * 86400
    + (d.hour : Int) * 3600 + (d.minute : Int) * 60 + (d.second : Int)
    - (d.tz.getD 0) * 60

/-- `value.replace(tzinfo=zone) if value.tzinfo is None else value`:
attach the reference zone only to naive values. -/
def attachTz (zone : Int) (d : PyDatetime) : PyDatetime :=
  match d.tz with
  | none => { d with tz := some zone }
  | some _ => d

/-! ## Decimal rendering helpers -/

/-- One decimal digit. -/
def digitChar : Nat → Char
  | 0 => '0' | 1 => '1' | 2 => '2' | 3 => '3' | 4 => '4'
  | 5 => '5' | 6 => '6' | 7 => '7' | 8 => '8' | 9 => '9'
  | _ => '*'

/-- Decimal digits, with fuel so that the kernel can evaluate it
(`fuel > n` always suffices). -/
def natCharsAux : Nat → Nat → List Char
  | 0, _ => []
  | fuel + 1, n =>
    if n < 10 then [digitChar n]
    else natCharsAux fuel (n / 10) ++ [digitChar (n % 10)]

/-- Decimal digits of a natural number (Python `str(n)` / `%d`). -/
def natChars (n : Nat) : List Char := natCharsAux (n + 1) n

/-- Zero-padded decimal of width `w` (`strftime` field padding). -/
def padNat (w n : Nat) : List Char :=
  List.replicate (w - (natChars n).length) '0' ++ natChars n

/-- Decimal digits of an integer (Python `str(i)`). -/
def intChars (i : Int) : List Char :=
  if i < 0 then '-' :: natChars i.natAbs else natChars i.toNat

/-! ## `_format_datetime` (http.py lines 276-278) -/

/-- `dt_util.as_utc(value).strftime("%Y%m%dT%H%M%SZ")`.  `as_utc`
interprets a naive value in the reference zone `refTz` (Home
Assistant's configured `DEFAULT_TIME_ZONE`) and converts to UTC. -/
def formatPyDatetime (refTz : Int) (d : PyDatetime) : String :=
  let t := toSeconds (attachTz refTz d)
  let days := t / 86400
  let secs := (t % 86400).toNat
  let c := civilFromDays days
  ⟨padNat 4 c.1.toNat ++ padNat 2 c.2.1 ++ padNat 2 c.2.2 ++ ['T']
    ++ padNat 2 (secs / 3600) ++ padNat 2 (secs % 3600 / 60)
    ++ padNat 2 (secs % 60) ++ ['Z']⟩

/-- `value.date().strftime("%Y%m%d")` for the all-day branch. -/
def formatPyDate (d : PyDatetime) : String :=
  ⟨padNat 4 d.year.toNat ++ padNat 2 d.month ++ padNat 2 d.day⟩

/-! ## Event representation -/

/-- The shapes a `CalendarEvent.start` / `.end` attribute can take as
seen by `_ensure_datetime` (http.py line 291): a `datetime`, a plain
`date`, a mapping (only its `"dateTime"` and `"date"` string fields
are consulted), Python `None` / a missing attribute, or any other
unrecognized object. -/
inductive EventTime where
  | dt (d : PyDatetime)
  | dateOnly (y : Int) (m d : Nat)
  | mapping (dateTimeField dateField : Option String)
  | absent
  | unrecognized
deriving DecidableEq

/-- A Home Assistant `CalendarEvent` as the feed code reads it, with
`getattr` defaults: every field may be missing/None.  `stop` is the
Python attribute `end`. -/
structure CalEvent where
  start : EventTime
  stop : EventTime
  summary : Option String
  description : Option String
  location : Option String
  uid : Option String
  allDay : Bool
deriving DecidableEq

/-- `getattr(event, "summary", "") or ""`. -/
def summaryOf (e : CalEvent) : String := e.summary.getD ""

/-! ## `_ensure_datetime` (http.py lines 291-324)

`pd` models the external `dt_util.parse_datetime` (ISO-8601 timestamp
parse, `none` on failure); `bare` models
`datetime.fromisoformat(f"{s}T00:00:00")` (`none` when that raises
`ValueError`, otherwise the civil date).  `refTz` is
`dt_util.DEFAULT_TIME_ZONE` as a UTC offset in minutes. -/
def ensureDatetime (pd : String → Option PyDatetime)
    (bare : String → Option (Int × Nat × Nat)) (refTz : Int) :
    EventTime → Option PyDatetime
  | .dt d => some d
  | .dateOnly y m d => some ⟨y, m, d, 0, 0, 0, some refTz⟩
  | .absent => none
  | .unrecognized => none
  | .mapping dtf df =>
    let dateBranch :=
      match truthy df with
      | some s =>
        match pd s with
        | some p => some (attachTz refTz p)
        | none =>
          match bare s with
          | some (y, m, d) => some ⟨y, m, d, 0, 0, 0, some refTz⟩
          | none => none
      | none => none
    match truthy dtf with
    | some s =>
      match pd s with
      | some p => some (attachTz refTz p)
      | none => dateBranch
    | none => dateBranch

/-! ## Modelled collaborator parsers -/

/-- Decimal digit value of a character. -/
def digVal (c : Char) : Option Nat :=
  if '0' ≤ c ∧ c ≤ '9' then some (c.toNat - 48) else none

/-- Two decimal digits. -/
def parse2 (a b : Char) : Option Nat :=
  match digVal a, digVal b with
  | some x, some y => some (10 * x + y)
  | _, _ => none

/-- Four decimal digits. -/
def parse4 (a b c d : Char) : Option Nat :=
  match parse2 a b, parse2 c d with
  | some x, some y => some (100 * x + y)
  | _, _ => none

/-- Days in a month of the proleptic Gregorian calendar. -/
def daysInMonth (y : Int) (m : Nat) : Nat :=
  if m = 2 then (if y % 4 = 0 ∧ (y % 100 ≠ 0 ∨ y % 400 = 0) then 29 else 28)
  else if m = 4 ∨ m = 6 ∨ m = 9 ∨ m = 11 then 30
  else 31

/-- A valid civil date. -/
def validDate (y : Int) (m d : Nat) : Prop :=
  1 ≤ m ∧ m ≤ 12 ∧ 1 ≤ d ∧ d ≤ daysInMonth y m

instance (y : Int) (m d : Nat) : Decidable (validDate y m d) := by
  unfold validDate; infer_instance

/-- Modelled from the spec: `homeassistant.util.dt.parse_datetime`, the
collaborator that the spec describes as "parse as an ISO-8601
timestamp".  Accepts `YYYY-MM-DDTHH:MM:SS` with an optional `Z` or
`±HH:MM` offset; a bare date has no time component and is rejected
(the spec's date handling attempts a "full-timestamp parse, then bare
date-at-midnight parse, in that order", so the full-timestamp parse
does not accept bare dates). -/
def specParseDatetime (s : String) : Option PyDatetime :=
  match s.data with
  | y1 :: y2 :: y3 :: y4 :: '-' :: m1 :: m2 :: '-' :: d1 :: d2 :: 'T' ::
      h1 :: h2 :: ':' :: n1 :: n2 :: ':' :: s1 :: s2 :: rest =>
    match parse4 y1 y2 y3 y4, parse2 m1 m2, parse2 d1 d2,
          parse2 h1 h2, parse2 n1 n2, parse2 s1 s2 with
    | some y, some mo, some da, some h, some mi, some se =>
      if validDate y mo da ∧ h < 24 ∧ mi < 60 ∧ se < 60 then
        match rest with
        | [] => some ⟨y, mo, da, h, mi, se, none⟩
        | ['Z'] => some ⟨y, mo, da, h, mi, se, some 0⟩
        | ['+', o1, o2, ':', o3, o4] =>
          match parse2 o1 o2, parse2 o3 o4 with
          | some oh, some om =>
            if oh < 24 ∧ om < 60 then some ⟨y, mo, da, h, mi, se, some ((oh : Int) * 60 + om)⟩
            else none
          | _, _ => none
        | ['-', o1, o2, ':', o3, o4] =>
          match parse2 o1 o2, parse2 o3 o4 with
          | some oh, some om =>
            if oh < 24 ∧ om < 60 then some ⟨y, mo, da, h, mi, se, some (-((oh : Int) * 60 + om))⟩
            else none
          | _, _ => none
        | _ => none
      else none
    | _, _, _, _, _, _ => none
  | _ => none

/-- Modelled from the spec: the "bare date-at-midnight parse", i.e.
`datetime.fromisoformat(f"{date_only}T00:00:00")` for the missing
stdlib collaborator — it succeeds exactly on a valid `YYYY-MM-DD`. -/
def specBareDate (s : String) : Option (Int × Nat × Nat) :=
  match s.data with
  | [y1, y2, y3, y4, '-', m1, m2, '-', d1, d2] =>
    match parse4 y1 y2 y3 y4, parse2 m1 m2, parse2 d1 d2 with
    | some y, some m, some d =>
      if validDate y m d then some ((y : Int), m, d) else none
    | _, _, _ => none
  | _ => none

/-- Month number of an RFC-1123 month name. -/
def monthNum (s : String) : Option Nat :=
  if s = "Jan" then some 1 else if s = "Feb" then some 2
  else if s = "Mar" then some 3 else if s = "Apr" then some 4
  else if s = "May" then some 5 else if s = "Jun" then some 6
  else if s = "Jul" then some 7 else if s = "Aug" then some 8
  else if s = "Sep" then some 9 else if s = "Oct" then some 10
  else if s = "Nov" then some 11 else if s = "Dec" then some 12
  else none

/-- Modelled from the spec: "parse as an HTTP date", i.e. the missing
collaborator `email.utils.parsedate_to_datetime` composed with the UTC
normalization of http.py lines 399-401.  Accepts the RFC-1123 form
`Wdy, DD Mon YYYY HH:MM:SS GMT` and yields the denoted UTC instant. -/
def parseHTTPDate (s : String) : Option Int :=
  match splitChar ' ' s.data with
  | [_wd, [c1, c2], mon, [y1, y2, y3, y4], [h1, h2, ':', n1, n2, ':', s1, s2], gmt] =>
    if (⟨gmt⟩ : String) = "GMT" then
      match parse2 c1 c2, monthNum ⟨mon⟩, parse4 y1 y2 y3 y4,
            parse2 h1 h2, parse2 n1 n2, parse2 s1 s2 with
      | some d, some mo, some y, some h, some mi, some se =>
        if validDate y mo d ∧ h < 24 ∧ mi < 60 ∧ se < 60 then
          some (daysFromCivil y mo d * 86400 + (h : Int) * 3600 + (mi : Int) * 60 + se)
        else none
      | _, _, _, _, _, _ => none
    else none
  | _ => none

/-! ## Event collection (http.py `_async_generate_calendar` lines 181-206)

`asyncio.gather(..., return_exceptions=True)` yields one result per
calendar entity: its event list, or the exception the fetch raised.
The loop over the zipped results re-raises a `CancelledError`, skips a
`HomeAssistantError`, logs-and-skips any other exception, and extends
the event list with `(entity_id, event, summary)` tuples otherwise. -/

inductive FetchResult where
  | events (evs : List CalEvent)
  | cancelled
  | haError
  | unexpectedError
deriving DecidableEq

/-- One EventItem per collected event: `(entity_id, event, summary)`. -/
def EventItem := String × CalEvent × String

/-- What one `(entity_id, result)` pair contributes to the flattened
event list when no cancellation aborts the loop. -/
def calendarContribution : String × FetchResult → List (String × CalEvent × String)
  | (eid, .events evs) => evs.map (fun e => (eid, e, summaryOf e))
  | _ => []

/-- The result loop: `.error ()` models the re-raised
`asyncio.CancelledError`, `.ok` the flattened event list. -/
def collectEvents : List (String × FetchResult) → Except Unit (List (String × CalEvent × String))
  | [] => .ok []
  | (_, .cancelled) :: _ => .error ()
  | (_, .haError) :: rest => collectEvents rest
  | (_, .unexpectedError) :: rest => collectEvents rest
  | (eid, .events evs) :: rest =>
    (collectEvents rest).map (fun es => evs.map (fun e => (eid, e, summaryOf e)) ++ es)

/-! ## Event sorting (http.py lines 208-212) -/

/-- The sort key of line 210: `_ensure_datetime(event.start) or
default_sort_value`, as the instant it denotes (`default_sort_value`
is the render time `utc_now`). -/
def sortKey (pd : String → Option PyDatetime) (bare : String → Option (Int × Nat × Nat))
    (refTz : Int) (now : PyDatetime) (it : String × CalEvent × String) : Int :=
  toSeconds ((ensureDatetime pd bare refTz it.2.1.start).getD now)

/-- `events.sort(key=...)`: Python's stable ascending sort, which
`List.mergeSort` models (both are stable mergesorts). -/
def sortEvents (pd : String → Option PyDatetime) (bare : String → Option (Int × Nat × Nat))
    (refTz : Int) (now : PyDatetime) (evs : List (String × CalEvent × String)) :
    List (String × CalEvent × String) :=
  evs.mergeSort (fun a b => sortKey pd bare refTz now a ≤ sortKey pd bare refTz now b)

/-! ## `_format_event` (http.py lines 228-273) -/

/-- RFC5545 escaping on a `String`. -/
def escStr (s : String) : String := ⟨escapeValue s.data⟩

/-- `_format_event`.  Externals as parameters: `sha` is the hex digest
of `hashlib.sha256`, `strOfStart` the f-string rendering of the raw
`event.start` attribute (line 240), `asLocalDayStart` the composition
`dt_util.start_of_local_day(dt_util.as_local(·))` of the all-day
branch. -/
def formatEvent (pd : String → Option PyDatetime) (bare : String → Option (Int × Nat × Nat))
    (refTz : Int) (sha : String → String) (strOfStart : EventTime → String)
    (asLocalDayStart : PyDatetime → PyDatetime)
    (entityId : String) (e : CalEvent) (now : PyDatetime)
    (summaryOverride : Option String) : List String :=
  let summaryAttr := e.summary.getD ""
  let uid :=
    match truthy e.uid with
    | some u => u
    | none => sha (entityId ++ "-" ++ strOfStart e.start ++ "-" ++ summaryAttr)
  let startDt := (ensureDatetime pd bare refTz e.start).getD now
  let endDt := (ensureDatetime pd bare refTz e.stop).getD startDt
  let dtLines :=
    if e.allDay then
      ["DTSTART;VALUE=DATE:" ++ formatPyDate (asLocalDayStart startDt),
       "DTEND;VALUE=DATE:" ++ formatPyDate (asLocalDayStart endDt)]
    else
      ["DTSTART:" ++ formatPyDatetime refTz startDt,
       "DTEND:" ++ formatPyDatetime refTz endDt]
  let summary := match summaryOverride with | some s => s | none => e.summary.getD ""
  let description := e.description.getD ""
  let location := e.location.getD ""
  ["BEGIN:VEVENT"] ++ dtLines
    ++ ["DTSTAMP:" ++ formatPyDatetime refTz now]
    ++ ["SUMMARY:" ++ escStr summary]
    ++ (if description ≠ "" then ["DESCRIPTION:" ++ escStr description] else [])
    ++ (if location ≠ "" then ["LOCATION:" ++ escStr location] else [])
    ++ ["UID:" ++ uid, "END:VEVENT"]

/-! ## URL masking (util.py `mask_feed_url` lines 60-78,
`log_feed_summary` lines 81-92) -/

/-- Split at the first occurrence of `pat` (Python `s.split(pat, 1)`
when `pat in s`, else `none`; this also decides `pat in s`). -/
def splitAtFirst (pat : List Char) : List Char → Option (List Char × List Char)
  | [] => if pat.isPrefixOf ([] : List Char) then some ([], []) else none
  | c :: rest =>
    if pat.isPrefixOf (c :: rest) then some ([], (c :: rest).drop pat.length)
    else
      match splitAtFirst pat rest with
      | some (p, r) => some (c :: p, r)
      | none => none

/-- Python `s.split(sep, limit)` for a one-character separator. -/
def splitLimit (sep : Char) : Nat → List Char → List (List Char)
  | 0, l => [l]
  | k + 1, l =>
    match splitAtFirst [sep] l with
    | none => [l]
    | some (p, r) => p :: splitLimit sep k r

/-- `mask_feed_url`: locate `"/ical/"`, split the remainder into at
most three `/`-separated parts, and replace the first part (the
secret) by `"***"` when it has at most 6 characters, else by its first
4 characters, an ellipsis, and its last 4 characters. -/
def maskFeedUrl (url : String) : String :=
  if url = "" then ""
  else
    match splitAtFirst "/ical/".data url.data with
    | none => url
    | some (pre, remainder) =>
      let parts := splitLimit '/' 2 remainder
      if parts.length < 2 then url
      else
        let secret := parts.headD []
        let maskedSecret :=
          if secret.length ≤ 6 then "***".data
          else secret.take 4 ++ '…' :: secret.drop (secret.length - 4)
        ⟨pre ++ "/ical/".data ++ ((maskedSecret :: parts.tail).intersperse ['/']).flatten⟩

/-- `log_feed_summary`: the formatted record
`"Feed %s served %s events (%s)" % (entry.title or entry.entry_id,
event_count, mask_feed_url(url))`. -/
def logLine (e : ConfigEntry) (url : String) (count : Nat) : String :=
  let name := if e.title = "" then e.entryId else e.title
  "Feed " ++ name ++ " served " ++ (⟨natChars count⟩ : String)
    ++ " events (" ++ maskFeedUrl url ++ ")"

/-! ## Config fingerprint (http.py `_hash_config` lines 343-360)

`json.dumps({...}, separators=(",", ":"), sort_keys=True)` emits the
keys in the order `calendars`, `future_days`, `past_days`, `title`,
with no whitespace, the calendar ids sorted, and strings escaped by
the JSON encoder with `ensure_ascii=True` (every character outside
printable ASCII becomes `\uXXXX`, astral characters a surrogate pair).
The only call site passes `entry.title`, a string, so `title or ""`
is the identity here. -/

/-- One hexadecimal digit, lowercase (CPython's `\uXXXX` escapes are
lowercase). -/
def hexChar : Nat → Char
  | 0 => '0' | 1 => '1' | 2 => '2' | 3 => '3' | 4 => '4'
  | 5 => '5' | 6 => '6' | 7 => '7' | 8 => '8' | 9 => '9'
  | 10 => 'a' | 11 => 'b' | 12 => 'c' | 13 => 'd' | 14 => 'e'
  | 15 => 'f' | _ => '*'

/-- Four hex digits of a value below `0x10000`. -/
def hex4 (n : Nat) : List Char :=
  [hexChar (n / 4096 % 16), hexChar (n / 256 % 16), hexChar (n / 16 % 16), hexChar (n % 16)]

/-- The JSON encoding of one character (CPython `json` with
`ensure_ascii=True`): the two-character shorthands, `\uXXXX` for other
control or non-ASCII characters, surrogate pairs above `0xFFFF`. -/
def jsonEscapeChar (c : Char) : List Char :=
  if c = '"' then ['\\', '"']
  else if c = '\\' then ['\\', '\\']
  else if c = '\n' then ['\\', 'n']
  else if c = '\t' then ['\\', 't']
  else if c = '\r' then ['\\', 'r']
  else if c = '\x08' then ['\\', 'b']
  else if c = '\x0c' then ['\\', 'f']
  else if c.toNat < 0x20 then '\\' :: 'u' :: hex4 c.toNat
  else if c.toNat ≤ 0x7e then [c]
  else if c.toNat < 0x10000 then '\\' :: 'u' :: hex4 c.toNat
  else
    '\\' :: 'u' :: hex4 (0xd800 + (c.toNat - 0x10000) / 0x400)
      ++ '\\' :: 'u' :: hex4 (0xdc00 + (c.toNat - 0x10000) % 0x400)

/-- A JSON string literal. -/
def jsonQuote (s : String) : List Char :=
  '"' :: s.data.flatMap jsonEscapeChar ++ ['"']

/-- `sorted(calendars)`: Python's sorted is a stable mergesort under
lexicographic code-point comparison, which is `String`'s order. -/
def sortedStrings (cals : List String) : List String :=
  cals.mergeSort (fun a b => a ≤ b)

/-- `",".join`-style gluing as the JSON array separator places it. -/
def joinComma : List (List Char) → List Char
  | [] => []
  | [x] => x
  | x :: y :: t => x ++ ',' :: joinComma (y :: t)

/-- The exact byte string `json.dumps` produces in `_hash_config`
(the digest input). -/
def serializeConfig (title : String) (cals : List String) (pastDays futureDays : Int) :
    List Char :=
  "\x7b\"calendars\":[".data
    ++ joinComma ((sortedStrings cals).map jsonQuote)
    ++ "],\"future_days\":".data ++ intChars futureDays
    ++ ",\"past_days\":".data ++ intChars pastDays
    ++ ",\"title\":".data ++ jsonQuote title
    ++ "\x7d".data

/-- `_hash_config`: the hex digest of the canonical serialization;
`sha` models `hashlib.sha256(payload).hexdigest()`. -/
def hashConfig (sha : String → String) (title : String) (cals : List String)
    (pastDays futureDays : Int) : String :=
  sha ⟨serializeConfig title cals pastDays futureDays⟩

/-! ### A parser for the serialized payload

Used only to prove that `serializeConfig` is injective in the title,
the sorted calendar list, and the two day counts.  Decoded string
contents are returned as code points. -/

/-- Lowercase hex digit value. -/
def hexVal (c : Char) : Option Nat :=
  if '0' ≤ c ∧ c ≤ '9' then some (c.toNat - 48)
  else if 'a' ≤ c ∧ c ≤ 'f' then some (c.toNat - 87)
  else none

def hex4Val (a b c d : Char) : Option Nat :=
  match hexVal a, hexVal b, hexVal c, hexVal d with
  | some x, some y, some z, some w => some (((x * 16 + y) * 16 + z) * 16 + w)
  | _, _, _, _ => none

/-- Decode a JSON string body up to its closing quote, yielding the
code points and the rest of the input.  Structurally recursive on a
fuel argument (one unit per decoded character; any fuel beyond the
content length gives the same result). -/
def parseJBody : Nat → List Char → Option (List Nat × List Char)
  | 0, _ => none
  | fuel + 1, l =>
    match l with
    | [] => none
    | c :: rest =>
      if c = '"' then some ([], rest)
      else if c = '\\' then
        match rest with
        | [] => none
        | e :: rest2 =>
          if e = '"' then (parseJBody fuel rest2).map (fun p => (0x22 :: p.1, p.2))
          else if e = '\\' then (parseJBody fuel rest2).map (fun p => (0x5c :: p.1, p.2))
          else if e = 'n' then (parseJBody fuel rest2).map (fun p => (0x0a :: p.1, p.2))
          else if e = 't' then (parseJBody fuel rest2).map (fun p => (0x09 :: p.1, p.2))
          else if e = 'r' then (parseJBody fuel rest2).map (fun p => (0x0d :: p.1, p.2))
          else if e = 'b' then (parseJBody fuel rest2).map (fun p => (0x08 :: p.1, p.2))
          else if e = 'f' then (parseJBody fuel rest2).map (fun p => (0x0c :: p.1, p.2))
          else if e = 'u' then
            match rest2 with
            | h1 :: h2 :: h3 :: h4 :: rest3 =>
              match hex4Val h1 h2 h3 h4 with
              | none => none
              | some v =>
                if v < 0xd800 ∨ 0xe000 ≤ v then
                  (parseJBody fuel rest3).map (fun p => (v :: p.1, p.2))
                else if 0xdc00 ≤ v then none
                else
                  match rest3 with
                  | e2 :: u2 :: g1 :: g2 :: g3 :: g4 :: rest4 =>
                    if e2 = '\\' ∧ u2 = 'u' then
                      match hex4Val g1 g2 g3 g4 with
                      | none => none
                      | some w =>
                        if 0xdc00 ≤ w ∧ w < 0xe000 then
                          (parseJBody fuel rest4).map
                            (fun p => ((0x10000 + (v - 0xd800) * 0x400 + (w - 0xdc00)) :: p.1, p.2))
                        else none
                    else none
                  | _ => none
            | _ => none
          else none
      else (parseJBody fuel rest).map (fun p => (c.toNat :: p.1, p.2))

/-- A JSON string literal (opening quote then body). -/
def parseJString (fuel : Nat) : List Char → Option (List Nat × List Char)
  | [] => none
  | c :: rest => if c = '"' then parseJBody fuel rest else none

/-- The inside of a JSON string array after its `[`: `fuelElems` bounds
the element count, `fuelStr` the length of each string body. -/
def parseJStrList (fuelStr : Nat) : Nat → List Char → Option (List (List Nat) × List Char)
  | _, ']' :: rest => some ([], rest)
  | fuelElems + 1, l =>
    match parseJString fuelStr l with
    | none => none
    | some (s, r) =>
      match r with
      | ',' :: r2 =>
        match parseJStrList fuelStr fuelElems r2 with
        | some (ss, r3) => some (s :: ss, r3)
        | none => none
      | ']' :: r2 => some ([s], r2)
      | _ => none
  | 0, _ => none

/-- Greedy decimal natural-number parse. -/
def parseNatChars (l : List Char) : Option (Nat × List Char) :=
  let ds := l.takeWhile (fun c => (digVal c).isSome)
  if ds = [] then none
  else some (ds.foldl (fun acc c => acc * 10 + (digVal c).getD 0) 0,
             l.dropWhile (fun c => (digVal c).isSome))

/-- Decimal integer parse (optional sign). -/
def parseIntChars (l : List Char) : Option (Int × List Char) :=
  match l with
  | [] => none
  | c :: rest =>
    if c = '-' then (parseNatChars rest).map (fun p => (-(p.1 : Int), p.2))
    else (parseNatChars (c :: rest)).map (fun p => ((p.1 : Int), p.2))

/-- Expect a literal chunk. -/
def dropLit (lit l : List Char) : Option (List Char) :=
  if l.take lit.length = lit then some (l.drop lit.length) else none

/-- Parse the full `_hash_config` payload back into (calendar ids,
future_days, past_days, title). -/
def parsePayload (l : List Char) : Option (List (List Nat) × Int × Int × List Nat) :=
  match dropLit "\x7b\"calendars\":[".data l with
  | none => none
  | some l1 =>
    match parseJStrList (l1.length + 1) l1.length l1 with
    | none => none
    | some (cals, l2) =>
      match dropLit ",\"future_days\":".data l2 with
      | none => none
      | some l3 =>
        match parseIntChars l3 with
        | none => none
        | some (fd, l4) =>
          match dropLit ",\"past_days\":".data l4 with
          | none => none
          | some l5 =>
            match parseIntChars l5 with
            | none => none
            | some (pdays, l6) =>
              match dropLit ",\"title\":".data l6 with
              | none => none
              | some l7 =>
                match parseJString (l7.length + 1) l7 with
                | none => none
                | some (t, l8) => if l8 = ['}'] then some (cals, fd, pdays, t) else none

/-! ## Sample data used by the concrete witnesses -/

def sampleEntry : ConfigEntry := ⟨"entry1", "Team Feed", some "s3cret"⟩

def sampleCacheEntry : FeedCacheEntry := ⟨"PAYLOAD", "\"PAYLOAD\"", 100, 50, "cfg"⟩

def sampleCache : FeedCache := [("entry1", sampleCacheEntry)]

def sampleEvent : CalEvent :=
  ⟨.dt ⟨2024, 5, 6, 10, 0, 0, some 0⟩, .dt ⟨2024, 5, 6, 11, 0, 0, some 0⟩,
   some "Original title", some "Details", some "HQ", some "uid-1", false⟩

def unparsableEvent : CalEvent :=
  ⟨.mapping (some "garbage") none, .absent, some "S", none, none, some "u1", false⟩

def sampleNow : PyDatetime := ⟨2024, 5, 6, 12, 0, 0, some 0⟩

/-! # Theorems -/

/-- Predicate equivalence for the secret scan. -/
theorem secret_pred_iff (secret : String) (c : ConfigEntry) :
    (match c.secret with | some s => s == secret | none => false) = true ↔
      c.secret = some secret := by
  cases h : c.secret <;> simp

/-- C1: the feed is resolved by scanning configured feeds and taking
the first one whose configured secret equals the path secret; a slug
mismatch on the resolved feed, like a secret matching no feed, yields
the same not-found outcome; in particular an incorrect secret with a
correct slug resolves to not-found. -/
theorem claim_C1 (slugify : String → String) (entries : List ConfigEntry)
    (secret feed : String) :
    (∀ e, findEntryBySecret entries secret = some e →
      e.secret = some secret ∧
      ∃ pre suf, entries = pre ++ e :: suf ∧ ∀ x ∈ pre, x.secret ≠ some secret) ∧
    (findEntryBySecret entries secret = none ↔ ∀ e ∈ entries, e.secret ≠ some secret) ∧
    (∀ e, findEntryBySecret entries secret = some e → feed ≠ getFeedSlug slugify e →
      resolveAccess slugify entries secret feed = .notFound) ∧
    (findEntryBySecret entries secret = none →
      resolveAccess slugify entries secret feed = .notFound) ∧
    (∀ e, findEntryBySecret entries secret = some e → feed = getFeedSlug slugify e →
      resolveAccess slugify entries secret feed = .feed e) ∧
    ((∀ e ∈ entries, e.secret ≠ some secret) →
      (∃ e ∈ entries, getFeedSlug slugify e = feed) →
      resolveAccess slugify entries secret feed = .notFound) := by
  refine ⟨?_, ?_, ?_, ?_, ?_, ?_⟩
  · intro e he
    unfold findEntryBySecret at he
    rw [List.find?_eq_some] at he
    obtain ⟨hp, pre, suf, heq, hpre⟩ := he
    refine ⟨(secret_pred_iff secret e).mp hp, pre, suf, heq, ?_⟩
    intro x hx hc
    have := hpre x hx
    rw [(secret_pred_iff secret x).mpr hc] at this
    simp at this
  · unfold findEntryBySecret
    rw [List.find?_eq_none]
    constructor
    · intro h e he hc
      exact h e he ((secret_pred_iff secret e).mpr hc)
    · intro h e he hp
      exact h e he ((secret_pred_iff secret e).mp hp)
  · intro e he hne
    unfold resolveAccess
    rw [he]
    simp [hne]
  · intro h
    unfold resolveAccess
    rw [h]
  · intro e he hfe
    unfold resolveAccess
    rw [he]
    simp [hfe]
  · intro hsec _
    unfold resolveAccess
    have : findEntryBySecret entries secret = none := by
      unfold findEntryBySecret
      rw [List.find?_eq_none]
      intro e he hp
      exact hsec e he ((secret_pred_iff secret e).mp hp)
    rw [this]

/-- C1 witness: with one configured feed, a wrong secret with the
correct slug is not found, while the right secret and slug resolve. -/
theorem claim_C1_witness :
    resolveAccess (fun _ => "team_feed") [sampleEntry] "wrong" "team_feed" = .notFound ∧
    resolveAccess (fun _ => "team_feed") [sampleEntry] "s3cret" "team_feed" = .feed sampleEntry :=
  ⟨(claim_C1 (fun _ => "team_feed") [sampleEntry] "wrong" "team_feed").2.2.2.2.2
      (by decide) ⟨sampleEntry, by decide, by decide⟩,
   (claim_C1 (fun _ => "team_feed") [sampleEntry] "s3cret" "team_feed").2.2.2.2.1
      sampleEntry (by decide) (by decide)⟩

/-- C4: the cache lookup returns nothing when no entry is stored or the
stored fingerprint differs (regardless of expiry); with `allow_expired`
a fingerprint-matching entry is returned even when expired; without it
an expired entry is not returned. -/
theorem claim_C4 (cache : FeedCache) (entryId configHash : String)
    (allowExpired : Bool) (mono : Int) :
    (cacheFind cache entryId = none →
      getCachedFeed cache entryId configHash allowExpired mono = none) ∧
    (∀ c, cacheFind cache entryId = some c → c.configHash ≠ configHash →
      getCachedFeed cache entryId configHash allowExpired mono = none) ∧
    (∀ c, cacheFind cache entryId = some c → c.configHash = configHash →
      getCachedFeed cache entryId configHash true mono = some c) ∧
    (∀ c, cacheFind cache entryId = some c → c.configHash = configHash →
      c.expiresAt ≤ mono →
      getCachedFeed cache entryId configHash false mono = none) ∧
    (∀ c, cacheFind cache entryId = some c → c.configHash = configHash →
      mono < c.expiresAt →
      getCachedFeed cache entryId configHash allowExpired mono = some c) := by
  refine ⟨?_, ?_, ?_, ?_, ?_⟩
  · intro h
    unfold getCachedFeed
    rw [h]
  · intro c h hc
    unfold getCachedFeed
    rw [h]
    simp [hc]
  · intro c h hc
    unfold getCachedFeed
    rw [h]
    simp [hc]
  · intro c h hc hexp
    unfold getCachedFeed
    rw [h]
    simp [hc, hexp]
  · intro c h hc hfresh
    unfold getCachedFeed
    rw [h]
    simp [hc]
    omega

/-- C4 witness: an expired entry (expiry 50 ≤ clock 60) is returned
with `allow_expired`, withheld without it, and a fingerprint mismatch
returns nothing even with `allow_expired`. -/
theorem claim_C4_witness :
    getCachedFeed sampleCache "entry1" "cfg" true 60 = some sampleCacheEntry ∧
    getCachedFeed sampleCache "entry1" "cfg" false 60 = none ∧
    getCachedFeed sampleCache "entry1" "other" true 60 = none :=
  ⟨(claim_C4 sampleCache "entry1" "cfg" true 60).2.2.1 sampleCacheEntry (by decide) (by decide),
   (claim_C4 sampleCache "entry1" "cfg" false 60).2.2.2.1 sampleCacheEntry
      (by decide) (by decide) (by decide),
   (claim_C4 sampleCache "entry1" "other" true 60).2.1 sampleCacheEntry (by decide) (by decide)⟩

/-- C3: on regeneration, when a fingerprint-matching cache entry
(expired or not) has the same entity tag as the new payload, the new
entry and the response headers carry its `last_modified` unchanged;
otherwise `last_modified` is the current time.  Under injectivity of
the digest, equal entity tags mean equal payload bytes, so
`last_modified` only changes when the payload changes. -/
theorem claim_C3 (sha : String → String) (cache : FeedCache)
    (entryId configHash payload : String) (now mono : Int) :
    (∀ c, getCachedFeed cache entryId configHash true mono = some c →
      c.etag = etagForPayload sha payload →
      (regenerateFeed sha cache entryId configHash payload now mono).1.lastModified
          = c.lastModified ∧
      (regenerateFeed sha cache entryId configHash payload now mono).2.1.lastModified
          = c.lastModified) ∧
    (∀ c, getCachedFeed cache entryId configHash true mono = some c →
      c.etag ≠ etagForPayload sha payload →
      (regenerateFeed sha cache entryId configHash payload now mono).1.lastModified = now ∧
      (regenerateFeed sha cache entryId configHash payload now mono).2.1.lastModified = now) ∧
    (getCachedFeed cache entryId configHash true mono = none →
      (regenerateFeed sha cache entryId configHash payload now mono).1.lastModified = now ∧
      (regenerateFeed sha cache entryId configHash payload now mono).2.1.lastModified = now) ∧
    (cacheFind (regenerateFeed sha cache entryId configHash payload now mono).2.2 entryId
        = some (regenerateFeed sha cache entryId configHash payload now mono).1) ∧
    (Function.Injective sha →
      ∀ p₁ p₂, etagForPayload sha p₁ = etagForPayload sha p₂ ↔ p₁ = p₂) := by
  refine ⟨?_, ?_, ?_, ?_, ?_⟩
  · intro c h he
    unfold regenerateFeed
    rw [h]
    simp [he, buildResponseHeaders]
  · intro c h he
    unfold regenerateFeed
    rw [h]
    simp [he, buildResponseHeaders]
  · intro h
    unfold regenerateFeed
    rw [h]
    simp [buildResponseHeaders]
  · simp [regenerateFeed, setCachedFeed, cacheFind]
  · intro hinj p₁ p₂
    constructor
    · intro h
      apply hinj
      have hd := congrArg String.data h
      simp only [etagForPayload, String.data_append] at hd
      apply String.ext
      rw [List.append_assoc, List.append_assoc] at hd
      exact List.append_cancel_right (List.append_cancel_left hd)
    · intro h
      rw [h]

/-- C3 witness: the cached entry's tag equals the tag of the identical
regenerated payload, so the carried `last_modified` is 100, not the
current time 200. -/
theorem claim_C3_witness :
    (regenerateFeed id sampleCache "entry1" "cfg" "PAYLOAD" 200 60).1.lastModified = 100 ∧
    (regenerateFeed id sampleCache "entry1" "cfg" "PAYLOAD" 200 60).2.1.lastModified = 100 :=
  (claim_C3 id sampleCache "entry1" "cfg" "PAYLOAD" 200 60).1 sampleCacheEntry
    (by decide) (by decide)

/-- C6: a failed fetch for one calendar never aborts the others — the
whole collection succeeds and that calendar contributes no events —
while any cancellation among the gathered results is re-raised. -/
theorem claim_C6 (rs : List (String × FetchResult)) :
    ((∀ r ∈ rs, r.2 ≠ FetchResult.cancelled) →
      collectEvents rs = .ok (rs.flatMap calendarContribution)) ∧
    ((∃ r ∈ rs, r.2 = FetchResult.cancelled) → collectEvents rs = .error ()) := by
  induction rs with
  | nil =>
    constructor
    · intro; rfl
    · rintro ⟨r, hr, -⟩
      simp at hr
  | cons p rest ih =>
    obtain ⟨eid, fr⟩ := p
    constructor
    · intro h
      have hrest : ∀ r ∈ rest, r.2 ≠ FetchResult.cancelled :=
        fun r hr => h r (List.mem_cons_of_mem _ hr)
      cases fr with
      | events evs =>
        simp only [collectEvents, ih.1 hrest, Except.map, List.flatMap_cons,
          calendarContribution]
      | cancelled => exact absurd rfl (h (eid, .cancelled) (List.mem_cons_self _ _))
      | haError =>
        simp only [collectEvents, ih.1 hrest, List.flatMap_cons, calendarContribution,
          List.nil_append]
      | unexpectedError =>
        simp only [collectEvents, ih.1 hrest, List.flatMap_cons, calendarContribution,
          List.nil_append]
    · rintro ⟨r, hr, hcanc⟩
      rcases List.mem_cons.mp hr with heq | hmem
      · subst heq
        simp only at hcanc
        rw [hcanc]
        rfl
      · have herr := ih.2 ⟨r, hmem, hcanc⟩
        cases fr with
        | events evs => simp only [collectEvents, herr]; rfl
        | cancelled => rfl
        | haError => simpa [collectEvents] using herr
        | unexpectedError => simpa [collectEvents] using herr

/-- C6 witness: a per-calendar failure leaves the other calendar's
events intact, and a cancellation in the results aborts the whole
collection. -/
theorem claim_C6_witness :
    collectEvents [("calendar.a", .haError), ("calendar.b", .events [sampleEvent])]
      = .ok [("calendar.b", sampleEvent, "Original title")] ∧
    collectEvents [("calendar.a", .events [sampleEvent]), ("calendar.b", .cancelled)]
      = .error () :=
  ⟨by
    rw [(claim_C6 [("calendar.a", .haError), ("calendar.b", .events [sampleEvent])]).1
      (by decide)]
    rfl,
   (claim_C6 [("calendar.a", .events [sampleEvent]), ("calendar.b", .cancelled)]).2
     ⟨("calendar.b", .cancelled), by decide, rfl⟩⟩

/-! Lemmas for the escaping claim. -/

theorem escapeValue_append (a b : List Char) :
    escapeValue (a ++ b) = escapeValue a ++ escapeValue b := by
  simp [escapeValue, replace1]

theorem escapeValue_single (c : Char) : escapeValue [c] = escapeCharRFC c := by
  by_cases h1 : c = '\\' <;> by_cases h2 : c = '\n' <;> by_cases h3 : c = ',' <;>
    by_cases h4 : c = ';' <;> simp_all [escapeValue, replace1, escapeCharRFC]

/-- C9 counterexample: the newline is not escaped by prefixing it with
a backslash — it is substituted by backslash + letter `n`. -/
theorem claim_C9_counterexample :
    escapeValue "\n".data ≠ "\n".data.flatMap claimEscapeChar ∧
    escapeValue "\n".data = ['\\', 'n'] ∧
    "\n".data.flatMap claimEscapeChar = ['\\', '\n'] := by
  refine ⟨by decide, by decide, by decide⟩

/-- C9 amended: the escaping function escapes exactly backslash,
newline, comma and semicolon, in that fixed order with backslash
first; backslash, comma and semicolon are prefixed with a backslash
while the newline is substituted by backslash + letter `n`; the
sequential substitutions equal one simultaneous pass, so backslashes
introduced by later substitutions are never themselves escaped. -/
theorem claim_C9 (l : List Char) :
    escapeValue l = l.flatMap escapeCharRFC ∧
    escapeCharRFC '\\' = ['\\', '\\'] ∧ escapeCharRFC '\n' = ['\\', 'n'] ∧
    escapeCharRFC ',' = ['\\', ','] ∧ escapeCharRFC ';' = ['\\', ';'] ∧
    (∀ c : Char, c ≠ '\\' → c ≠ '\n' → c ≠ ',' → c ≠ ';' → escapeCharRFC c = [c]) := by
  refine ⟨?_, by decide, by decide, by decide, by decide, ?_⟩
  · induction l with
    | nil => rfl
    | cons c t ih =>
      have hct : c :: t = [c] ++ t := rfl
      rw [hct, escapeValue_append, List.flatMap_append, ih, escapeValue_single]
      simp
  · intro c h1 h2 h3 h4
    simp [escapeCharRFC, h1, h2, h3, h4]

/-- C9 witness: a mixed string through the sequential escapes equals
the simultaneous pass, and an unaffected character stays itself. -/
theorem claim_C9_witness :
    escapeValue "a\\b,c".data = "a\\b,c".data.flatMap escapeCharRFC ∧
    escapeCharRFC 'a' = ['a'] :=
  ⟨(claim_C9 "a\\b,c".data).1,
   (claim_C9 []).2.2.2.2.2 'a' (by decide) (by decide) (by decide) (by decide)⟩

/-- C2 counterexample: with a present but non-matching `If-None-Match`
(`W/"other"` against current tag `"abc"`) and a matching
`If-Modified-Since`, the code reports not-modified, while the claim's
decision procedure — which decides from `If-None-Match` alone whenever
it is present — reports modified. -/
theorem claim_C2_counterexample :
    isNotModified parseHTTPDate (some "W/\"other\"")
        (some "Sun, 06 Nov 1994 08:49:37 GMT") "\"abc\"" 0 = true ∧
    claimNotModified parseHTTPDate (some "W/\"other\"")
        (some "Sun, 06 Nov 1994 08:49:37 GMT") "\"abc\"" 0 = false ∧
    isNotModified parseHTTPDate (some "W/\"other\"")
        (some "Sun, 06 Nov 1994 08:49:37 GMT") "\"abc\"" 0 ≠
      claimNotModified parseHTTPDate (some "W/\"other\"")
        (some "Sun, 06 Nov 1994 08:49:37 GMT") "\"abc\"" 0 := by
  refine ⟨by decide, by decide, by decide⟩

/-- C2 amended: the handler reports not-modified iff the truthy
`If-None-Match` header matches (a stripped lone `*`, or the entity tag
verbatim among the comma-split stripped parts), or — including when a
present `If-None-Match` does not match — the truthy
`If-Modified-Since` parses as an HTTP date at least the current
`last_modified` (an unparsable value is no match; with neither header
there is no match). -/
theorem claim_C2 (phd : String → Option Int) (inm ims : Option String)
    (etag : String) (lastModified : Int) :
    (isNotModified phd inm ims etag lastModified = true ↔
      ((∃ v, truthy inm = some v ∧ etagMatches v etag = true) ∨
       (∃ w since, truthy ims = some w ∧ phd w = some since ∧ lastModified ≤ since))) ∧
    (∀ v : String, v ≠ "" →
      (etagMatches v etag = true ↔
        (pyStrip v = "*" ∨ etag ∈ (splitChar ',' v.data).map (fun p => pyStrip ⟨p⟩)))) := by
  constructor
  · unfold isNotModified
    cases t1 : truthy inm with
    | none =>
      simp only [t1]
      cases t2 : truthy ims with
      | none => simp
      | some w =>
        cases hp : phd w with
        | none => simp [hp]
        | some since => simp [hp]
    | some v =>
      cases hm : etagMatches v etag with
      | true => simp [t1, hm]
      | false =>
        simp only [t1, hm, if_false]
        cases t2 : truthy ims with
        | none => simp [hm]
        | some w =>
          cases hp : phd w with
          | none => simp [hp, hm]
          | some since => simp [hp, hm]
  · intro v hv
    unfold etagMatches
    rw [if_neg hv]
    by_cases hstar : pyStrip v = "*"
    · simp [hstar]
    · simp only [hstar, if_false, false_or]
      rw [List.contains, List.elem_iff]

/-- C2 witness: with no `If-None-Match` and a parsable
`If-Modified-Since` no earlier than `last_modified`, the request is
not modified. -/
theorem claim_C2_witness :
    isNotModified parseHTTPDate none (some "Sun, 06 Nov 1994 08:49:37 GMT") "\"e\"" 0 = true :=
  (claim_C2 parseHTTPDate none (some "Sun, 06 Nov 1994 08:49:37 GMT") "\"e\"" 0).1.mpr
    (Or.inr ⟨"Sun, 06 Nov 1994 08:49:37 GMT", 784111777, by decide, by decide, by decide⟩)

/-! Side conditions of the sort comparator. -/

theorem sortLE_trans (pd : String → Option PyDatetime)
    (bare : String → Option (Int × Nat × Nat)) (refTz : Int) (now : PyDatetime) :
    ∀ a b c : String × CalEvent × String,
      (fun a b => decide (sortKey pd bare refTz now a ≤ sortKey pd bare refTz now b)) a b →
      (fun a b => decide (sortKey pd bare refTz now a ≤ sortKey pd bare refTz now b)) b c →
      (fun a b => decide (sortKey pd bare refTz now a ≤ sortKey pd bare refTz now b)) a c := by
  intro a b c h1 h2
  simp only [decide_eq_true_eq] at *
  omega

theorem sortLE_total (pd : String → Option PyDatetime)
    (bare : String → Option (Int × Nat × Nat)) (refTz : Int) (now : PyDatetime) :
    ∀ a b : String × CalEvent × String,
      ((fun a b => decide (sortKey pd bare refTz now a ≤ sortKey pd bare refTz now b)) a b
        || (fun a b => decide (sortKey pd bare refTz now a ≤ sortKey pd bare refTz now b)) b a) := by
  intro a b
  simp only [Bool.or_eq_true, decide_eq_true_eq]
  omega

/-- C7 counterexample: for an event whose start cannot be normalized,
the render-time fallback is not sort-only — the rendered DTSTART line
is exactly the formatted render time. -/
theorem claim_C7_counterexample :
    ensureDatetime specParseDatetime specBareDate 0 unparsableEvent.start = none ∧
    ("DTSTART:" ++ formatPyDatetime 0 sampleNow)
      ∈ formatEvent specParseDatetime specBareDate 0 (fun _ => "") (fun _ => "") id
          "calendar.a" unparsableEvent sampleNow (some "S") ∧
    formatPyDatetime 0 sampleNow = "20240506T120000Z" := by
  refine ⟨by decide, by decide, by decide⟩

/-- C7 amended: events are sorted ascending by normalized start with a
stable sort (any two events in input order whose keys are ordered —
ties included — remain in input order), an event whose start cannot be
normalized sorts as if its start equals the render time, and that
fallback is also rendered as the DTSTART of such an event (it is not
sort-only). -/
theorem claim_C7 (pd : String → Option PyDatetime)
    (bare : String → Option (Int × Nat × Nat)) (refTz : Int) (now : PyDatetime)
    (evs : List (String × CalEvent × String)) :
    (sortEvents pd bare refTz now evs).Pairwise
        (fun a b => sortKey pd bare refTz now a ≤ sortKey pd bare refTz now b) ∧
    List.Perm (sortEvents pd bare refTz now evs) evs ∧
    (∀ a b, List.Sublist [a, b] evs →
      sortKey pd bare refTz now a ≤ sortKey pd bare refTz now b →
      List.Sublist [a, b] (sortEvents pd bare refTz now evs)) ∧
    (∀ it : String × CalEvent × String,
      ensureDatetime pd bare refTz it.2.1.start = none →
      sortKey pd bare refTz now it = toSeconds now) ∧
    (∀ (sha : String → String) (strOfStart : EventTime → String)
        (ald : PyDatetime → PyDatetime) (entityId : String) (e : CalEvent)
        (so : Option String),
      ensureDatetime pd bare refTz e.start = none → e.allDay = false →
      ("DTSTART:" ++ formatPyDatetime refTz now)
        ∈ formatEvent pd bare refTz sha strOfStart ald entityId e now so) := by
  refine ⟨?_, ?_, ?_, ?_, ?_⟩
  · exact (List.sorted_mergeSort (sortLE_trans pd bare refTz now)
      (sortLE_total pd bare refTz now) evs).imp (fun h => of_decide_eq_true h)
  · exact List.mergeSort_perm evs _
  · intro a b hsub hk
    exact List.pair_sublist_mergeSort (sortLE_trans pd bare refTz now)
      (sortLE_total pd bare refTz now) (decide_eq_true hk) hsub
  · intro it h
    unfold sortKey
    rw [h]
    rfl
  · intro sha strOfStart ald entityId e so he hall
    simp [formatEvent, he, hall]

/-- C7 witness: sorting a parsable and an unparsable event is a
permutation of the input, and the unparsable one's key is the render
time. -/
theorem claim_C7_witness :
    List.Perm
      (sortEvents specParseDatetime specBareDate 0 sampleNow
        [("calendar.a", sampleEvent, "Original title"), ("calendar.b", unparsableEvent, "S")])
      [("calendar.a", sampleEvent, "Original title"), ("calendar.b", unparsableEvent, "S")] ∧
    sortKey specParseDatetime specBareDate 0 sampleNow ("calendar.b", unparsableEvent, "S")
      = toSeconds sampleNow :=
  ⟨(claim_C7 specParseDatetime specBareDate 0 sampleNow
      [("calendar.a", sampleEvent, "Original title"), ("calendar.b", unparsableEvent, "S")]).2.1,
   (claim_C7 specParseDatetime specBareDate 0 sampleNow
      [("calendar.a", sampleEvent, "Original title"), ("calendar.b", unparsableEvent, "S")]).2.2.2.1
     ("calendar.b", unparsableEvent, "S") (by decide)⟩

/-- C8 counterexample: with a present but unparsable `dateTime` field
the `date` field IS consulted — `{"dateTime": "garbage", "date":
"2024-05-06"}` yields midnight of 2024-05-06 in the reference zone,
although with the `dateTime` field alone the result would be absence. -/
theorem claim_C8_counterexample :
    ensureDatetime specParseDatetime specBareDate 60
        (.mapping (some "garbage") (some "2024-05-06"))
      = some ⟨2024, 5, 6, 0, 0, 0, some 60⟩ ∧
    specParseDatetime "garbage" = none ∧
    ensureDatetime specParseDatetime specBareDate 60 (.mapping (some "garbage") none)
      = none := by
  refine ⟨by decide, by decide, by decide⟩

/-- C8 amended: a truthy `dateTime` field is parsed as an ISO-8601
timestamp and, if the parse succeeds, the reference zone is attached
to a zoneless result; the `date` field is consulted whenever the
`dateTime` field is absent, empty, or fails to parse (not only when it
is missing) — first with a full-timestamp parse, then with a bare
date-at-midnight parse, and failing both the normalizer signals
absence; `{"date": "2024-05-06"}` yields midnight of 2024-05-06 in
the reference zone. -/
theorem claim_C8 (pd : String → Option PyDatetime)
    (bare : String → Option (Int × Nat × Nat)) (refTz : Int) (dtf df : Option String) :
    (∀ s p, truthy dtf = some s → pd s = some p →
      ensureDatetime pd bare refTz (.mapping dtf df) = some (attachTz refTz p)) ∧
    (∀ p : PyDatetime, (p.tz = none → attachTz refTz p = { p with tz := some refTz }) ∧
      (∀ z, p.tz = some z → attachTz refTz p = p)) ∧
    (∀ s' p, (truthy dtf = none ∨ ∃ s, truthy dtf = some s ∧ pd s = none) →
      truthy df = some s' → pd s' = some p →
      ensureDatetime pd bare refTz (.mapping dtf df) = some (attachTz refTz p)) ∧
    (∀ s' y m d, (truthy dtf = none ∨ ∃ s, truthy dtf = some s ∧ pd s = none) →
      truthy df = some s' → pd s' = none → bare s' = some (y, m, d) →
      ensureDatetime pd bare refTz (.mapping dtf df)
        = some ⟨y, m, d, 0, 0, 0, some refTz⟩) ∧
    (∀ s', (truthy dtf = none ∨ ∃ s, truthy dtf = some s ∧ pd s = none) →
      truthy df = some s' → pd s' = none → bare s' = none →
      ensureDatetime pd bare refTz (.mapping dtf df) = none) ∧
    ((truthy dtf = none ∨ ∃ s, truthy dtf = some s ∧ pd s = none) →
      truthy df = none → ensureDatetime pd bare refTz (.mapping dtf df) = none) ∧
    (ensureDatetime specParseDatetime specBareDate refTz (.mapping none (some "2024-05-06"))
      = some ⟨2024, 5, 6, 0, 0, 0, some refTz⟩) := by
  refine ⟨?_, ?_, ?_, ?_, ?_, ?_, ?_⟩
  · intro s p ht hp
    simp [ensureDatetime, ht, hp]
  · intro p
    constructor
    · intro h
      simp [attachTz, h]
    · intro z h
      simp [attachTz, h]
  · intro s' p hfail ht' hp'
    rcases hfail with h | ⟨s, ht, hp⟩
    · simp [ensureDatetime, h, ht', hp']
    · simp [ensureDatetime, ht, hp, ht', hp']
  · intro s' y m d hfail ht' hp' hb
    rcases hfail with h | ⟨s, ht, hp⟩
    · simp [ensureDatetime, h, ht', hp', hb]
    · simp [ensureDatetime, ht, hp, ht', hp', hb]
  · intro s' hfail ht' hp' hb
    rcases hfail with h | ⟨s, ht, hp⟩
    · simp [ensureDatetime, h, ht', hp', hb]
    · simp [ensureDatetime, ht, hp, ht', hp', hb]
  · intro hfail ht'
    rcases hfail with h | ⟨s, ht, hp⟩
    · simp [ensureDatetime, h, ht']
    · simp [ensureDatetime, ht, hp, ht']
  · simp [ensureDatetime, truthy,
      show specParseDatetime "2024-05-06" = none from by decide,
      show specBareDate "2024-05-06" = some (2024, 5, 6) from by decide]

/-- C8 witness: a parsable `dateTime` wins over a present `date`
field, with the already-zoned parse result returned unchanged. -/
theorem claim_C8_witness :
    ensureDatetime specParseDatetime specBareDate 60
      (.mapping (some "2024-05-06T07:08:09+00:00") (some "1999-01-01"))
      = some (attachTz 60 ⟨2024, 5, 6, 7, 8, 9, some 0⟩) :=
  (claim_C8 specParseDatetime specBareDate 60
      (some "2024-05-06T07:08:09+00:00") (some "1999-01-01")).1
    "2024-05-06T07:08:09+00:00" ⟨2024, 5, 6, 7, 8, 9, some 0⟩ (by decide) (by decide)

/-! Lemmas about the URL splitting helpers. -/

theorem splitAtFirst_some (pat : List Char) :
    ∀ l p r, splitAtFirst pat l = some (p, r) → l = p ++ pat ++ r := by
  intro l
  induction l with
  | nil =>
    intro p r h
    by_cases hp : pat.isPrefixOf ([] : List Char)
    · have hpat : pat = [] := List.prefix_nil.mp (List.isPrefixOf_iff_prefix.mp hp)
      simp only [splitAtFirst, hp, if_true, Option.some.injEq, Prod.mk.injEq] at h
      obtain ⟨h1, h2⟩ := h
      subst h1
      subst h2
      simp [hpat]
    · simp [splitAtFirst, hp] at h
  | cons c t ih =>
    intro p r h
    by_cases hp : pat.isPrefixOf (c :: t)
    · obtain ⟨s, hs⟩ := List.isPrefixOf_iff_prefix.mp hp
      simp only [splitAtFirst, hp, if_true, Option.some.injEq, Prod.mk.injEq] at h
      obtain ⟨hp1, hp2⟩ := h
      subst hp1
      rw [← hs, List.drop_left] at hp2
      subst hp2
      rw [← hs]
      simp
    · rw [show splitAtFirst pat (c :: t)
          = if pat.isPrefixOf (c :: t) = true then some ([], (c :: t).drop pat.length)
            else match splitAtFirst pat t with
                 | some (p, r) => some (c :: p, r)
                 | none => none from rfl, if_neg hp] at h
      cases hm : splitAtFirst pat t with
      | none => rw [hm] at h; exact absurd h (by simp)
      | some pr =>
        obtain ⟨p', r'⟩ := pr
        rw [hm] at h
        simp only [Option.some.injEq, Prod.mk.injEq] at h
        obtain ⟨h1, h2⟩ := h
        subst h1
        subst h2
        have := ih p' r' hm
        simp [this]

theorem splitAtFirst_sep_free (sep : Char) :
    ∀ (a rest : List Char), sep ∉ a →
      splitAtFirst [sep] (a ++ sep :: rest) = some (a, rest) := by
  intro a
  induction a with
  | nil =>
    intro rest _
    simp [splitAtFirst, List.isPrefixOf]
  | cons c a' ih =>
    intro rest h
    have hc : ¬(sep == c) = true := by
      simp only [beq_iff_eq]
      intro e
      exact h (by simp [e])
    have hstep : (c :: a') ++ sep :: rest = c :: (a' ++ sep :: rest) := rfl
    rw [hstep]
    have hnp : ¬([sep].isPrefixOf (c :: (a' ++ sep :: rest)) = true) := by
      simp [List.isPrefixOf, hc]
    have hrec := ih rest (fun hh => h (List.mem_cons_of_mem c hh))
    simp only [splitAtFirst, hnp, if_false, hrec]
    simp

theorem splitLimit_ne_nil (sep : Char) (k : Nat) (l : List Char) :
    splitLimit sep k l ≠ [] := by
  cases k with
  | zero => simp [splitLimit]
  | succ k =>
    unfold splitLimit
    cases h : splitAtFirst [sep] l with
    | none => simp
    | some pr => obtain ⟨p, r⟩ := pr; simp

theorem splitLimit_succ_eq (sep : Char) (k : Nat) (l p r : List Char)
    (h : splitAtFirst [sep] l = some (p, r)) :
    splitLimit sep (k + 1) l = p :: splitLimit sep k r := by
  show (match splitAtFirst [sep] l with
        | none => [l]
        | some (p, r) => p :: splitLimit sep k r) = p :: splitLimit sep k r
  rw [h]

theorem splitLimit_join (sep : Char) :
    ∀ (k : Nat) (l : List Char),
      ((splitLimit sep k l).intersperse [sep]).flatten = l := by
  intro k
  induction k with
  | zero => intro l; simp [splitLimit]
  | succ k ih =>
    intro l
    cases h : splitAtFirst [sep] l with
    | none =>
      have : splitLimit sep (k + 1) l = [l] := by
        show (match splitAtFirst [sep] l with
              | none => [l]
              | some (p, r) => p :: splitLimit sep k r) = [l]
        rw [h]
      rw [this]
      simp
    | some pr =>
      obtain ⟨p, r⟩ := pr
      have hl := splitAtFirst_some [sep] l p r h
      rw [splitLimit_succ_eq sep k l p r h]
      obtain ⟨h1, t1, hsp⟩ : ∃ h1 t1, splitLimit sep k r = h1 :: t1 := by
        cases e : splitLimit sep k r with
        | nil => exact absurd e (splitLimit_ne_nil sep k r)
        | cons h1 t1 => exact ⟨h1, t1, rfl⟩
      have ihr := ih r
      rw [hsp] at ihr ⊢
      rw [List.intersperse_cons_cons]
      simp only [List.flatten_cons]
      rw [ihr, hl]
      simp

/-- The shape of a masked URL whose first `"/ical/"` occurrence splits
it as `pre ++ "/ical/" ++ secret ++ "/" ++ rest` with a slash-free
secret. -/
theorem maskFeedUrl_shape (pre secret rest : List Char)
    (hfirst : splitAtFirst "/ical/".data (pre ++ "/ical/".data ++ secret ++ '/' :: rest)
        = some (pre, secret ++ '/' :: rest))
    (hsl : '/' ∉ secret) :
    maskFeedUrl ⟨pre ++ "/ical/".data ++ secret ++ '/' :: rest⟩
      = ⟨pre ++ "/ical/".data
          ++ (if secret.length ≤ 6 then "***".data
              else secret.take 4 ++ '…' :: secret.drop (secret.length - 4))
          ++ '/' :: rest⟩ := by
  have hne : (⟨pre ++ "/ical/".data ++ secret ++ '/' :: rest⟩ : String) ≠ "" := by
    intro heq
    have hd := congrArg String.data heq
    have hlen := congrArg List.length hd
    simp [String.data] at hlen
  have hsp2 : splitAtFirst ['/'] (secret ++ '/' :: rest) = some (secret, rest) :=
    splitAtFirst_sep_free '/' secret rest hsl
  have hparts : splitLimit '/' 2 (secret ++ '/' :: rest) = secret :: splitLimit '/' 1 rest :=
    splitLimit_succ_eq '/' 1 (secret ++ '/' :: rest) secret rest hsp2
  obtain ⟨h1, t1, hsp1⟩ : ∃ h1 t1, splitLimit '/' 1 rest = h1 :: t1 := by
    cases e : splitLimit '/' 1 rest with
    | nil => exact absurd e (splitLimit_ne_nil '/' 1 rest)
    | cons h1 t1 => exact ⟨h1, t1, rfl⟩
  have hjoin : ((splitLimit '/' 1 rest).intersperse ['/']).flatten = rest :=
    splitLimit_join '/' 1 rest
  rw [hsp1] at hjoin hparts
  unfold maskFeedUrl
  rw [if_neg hne]
  have hdata : (⟨pre ++ "/ical/".data ++ secret ++ '/' :: rest⟩ : String).data
      = pre ++ "/ical/".data ++ secret ++ '/' :: rest := rfl
  rw [hdata, hfirst]
  dsimp only
  rw [hparts]
  rw [if_neg (by simp)]
  dsimp only [List.headD, List.tail]
  rw [List.intersperse_cons_cons]
  simp only [List.flatten_cons]
  rw [hjoin]
  congr 1
  simp [List.append_assoc]

/-- C10 counterexample: when the slug equals the secret, the secret
segment is masked, yet the full secret still appears verbatim in the
feed-summary log line. -/
theorem claim_C10_counterexample :
    maskFeedUrl "https://h/ical/abcdefghij/abcdefghij.ics"
      = "https://h/ical/abcd…ghij/abcdefghij.ics" ∧
    "abcdefghij".data <:+:
      (logLine ⟨"id", "T", some "abcdefghij"⟩
        "https://h/ical/abcdefghij/abcdefghij.ics" 3).data := by
  refine ⟨by decide, by decide⟩

/-- C10 amended: the secret segment after the first `"/ical/"` is
masked — entirely by `***` when it has 6 or fewer characters, else to
its first 4 and last 4 characters around an ellipsis — two URLs
differing only in secrets that agree on the exposed characters (and
sit in the same length bucket) produce identical log output, and the
masked segment never equals the secret itself (unless the secret is
literally `***` or contains the ellipsis character); the full secret
can still appear in the log line when it occurs elsewhere in the URL
or in the feed's name. -/
theorem claim_C10 (pre secret rest : List Char) (e : ConfigEntry) (count : Nat)
    (hfirst : splitAtFirst "/ical/".data (pre ++ "/ical/".data ++ secret ++ '/' :: rest)
        = some (pre, secret ++ '/' :: rest))
    (hsl : '/' ∉ secret) :
    (secret.length ≤ 6 →
      maskFeedUrl ⟨pre ++ "/ical/".data ++ secret ++ '/' :: rest⟩
        = ⟨pre ++ "/ical/".data ++ "***".data ++ '/' :: rest⟩) ∧
    (6 < secret.length →
      maskFeedUrl ⟨pre ++ "/ical/".data ++ secret ++ '/' :: rest⟩
        = ⟨pre ++ "/ical/".data
            ++ (secret.take 4 ++ '…' :: secret.drop (secret.length - 4))
            ++ '/' :: rest⟩) ∧
    (∀ secret₂ : List Char, '/' ∉ secret₂ →
      splitAtFirst "/ical/".data (pre ++ "/ical/".data ++ secret₂ ++ '/' :: rest)
          = some (pre, secret₂ ++ '/' :: rest) →
      ((secret.length ≤ 6 ∧ secret₂.length ≤ 6) ∨
        (6 < secret.length ∧ 6 < secret₂.length ∧ secret.take 4 = secret₂.take 4 ∧
          secret.drop (secret.length - 4) = secret₂.drop (secret₂.length - 4))) →
      logLine e ⟨pre ++ "/ical/".data ++ secret ++ '/' :: rest⟩ count
        = logLine e ⟨pre ++ "/ical/".data ++ secret₂ ++ '/' :: rest⟩ count) ∧
    (6 < secret.length → '…' ∉ secret →
      secret.take 4 ++ '…' :: secret.drop (secret.length - 4) ≠ secret) ∧
    (secret.length ≤ 6 → secret ≠ "***".data → "***".data ≠ secret) := by
  refine ⟨?_, ?_, ?_, ?_, ?_⟩
  · intro h6
    rw [maskFeedUrl_shape pre secret rest hfirst hsl, if_pos h6]
  · intro h6
    rw [maskFeedUrl_shape pre secret rest hfirst hsl, if_neg (by omega)]
  · intro secret₂ hsl₂ hfirst₂ hagree
    unfold logLine
    rw [maskFeedUrl_shape pre secret rest hfirst hsl,
        maskFeedUrl_shape pre secret₂ rest hfirst₂ hsl₂]
    rcases hagree with ⟨ha, hb⟩ | ⟨ha, hb, hc, hd⟩
    · rw [if_pos ha, if_pos hb]
    · rw [if_neg (show ¬secret.length ≤ 6 from by omega),
          if_neg (show ¬secret₂.length ≤ 6 from by omega), hc, hd]
  · intro _ hmem heq
    apply hmem
    rw [← heq]
    simp
  · intro _ hne h
    exact hne h.symm

/-- C10 witness: two long secrets sharing their first and last four
characters produce the same feed-summary log line. -/
theorem claim_C10_witness :
    logLine sampleEntry ⟨"https://h".data ++ "/ical/".data ++ "abcd1234ghij".data
        ++ '/' :: "cal.ics".data⟩ 3
      = logLine sampleEntry ⟨"https://h".data ++ "/ical/".data ++ "abcdZZghij".data
        ++ '/' :: "cal.ics".data⟩ 3 :=
  (claim_C10 "https://h".data "abcd1234ghij".data "cal.ics".data sampleEntry 3
      (by decide) (by decide)).2.2.1 "abcdZZghij".data (by decide) (by decide)
    (Or.inr ⟨by decide, by decide, by decide, by decide⟩)

/-! Lemmas for the config-fingerprint claim: characters and hex. -/


theorem char_toNat_inj : Function.Injective Char.toNat := by
  intro a b h
  apply Char.eq_of_val_eq
  apply UInt32.eq_of_toBitVec_eq
  exact BitVec.eq_of_toNat_eq h

theorem char_valid_nat (c : Char) :
    c.toNat < 0xd800 ∨ (0xdfff < c.toNat ∧ c.toNat < 0x110000) := by
  rcases c.valid with h | ⟨h1, h2⟩
  · left
    have h' : c.val.toNat < (0xd800 : UInt32).toNat := by
      simpa [UInt32.lt_def, BitVec.lt_def] using h
    simpa using h'
  · right
    constructor
    · have h' : (0xdfff : UInt32).toNat < c.val.toNat := by
        simpa [UInt32.lt_def, BitVec.lt_def] using h1
      simpa using h'
    · have h' : c.val.toNat < (0x110000 : UInt32).toNat := by
        simpa [UInt32.lt_def, BitVec.lt_def] using h2
      simpa using h'

theorem hexVal_hexChar : ∀ x, x < 16 → hexVal (hexChar x) = some x := by decide

theorem hex4Val_encode (v : Nat) (h : v < 65536) :
    hex4Val (hexChar (v / 4096 % 16)) (hexChar (v / 256 % 16))
      (hexChar (v / 16 % 16)) (hexChar (v % 16)) = some v := by
  rw [hex4Val, hexVal_hexChar _ (Nat.mod_lt _ (by omega)),
      hexVal_hexChar _ (Nat.mod_lt _ (by omega)),
      hexVal_hexChar _ (Nat.mod_lt _ (by omega)),
      hexVal_hexChar _ (Nat.mod_lt _ (by omega))]
  show some (((v / 4096 % 16 * 16 + v / 256 % 16) * 16 + v / 16 % 16) * 16 + v % 16) = some v
  congr 1
  omega

theorem parseJBody_u_pair (f : Nat) (a1 a2 a3 a4 b1 b2 b3 b4 : Char) (v w : Nat)
    (rest4 : List Char)
    (hv : hex4Val a1 a2 a3 a4 = some v) (hw : hex4Val b1 b2 b3 b4 = some w)
    (hvr : 0xd800 ≤ v ∧ v < 0xdc00) (hwr : 0xdc00 ≤ w ∧ w < 0xe000) :
    parseJBody (f + 1)
        ('\\' :: 'u' :: a1 :: a2 :: a3 :: a4 :: '\\' :: 'u' :: b1 :: b2 :: b3 :: b4 :: rest4)
      = (parseJBody f rest4).map
          (fun p => ((0x10000 + (v - 0xd800) * 0x400 + (w - 0xdc00)) :: p.1, p.2)) := by
  simp [parseJBody, hv, hw]
  rw [if_neg (by omega), if_neg (by omega), if_pos hwr]

theorem parseJBody_encode :
    ∀ (s : List Char) (fuel : Nat), s.length < fuel → ∀ (rest : List Char),
      parseJBody fuel (s.flatMap jsonEscapeChar ++ '"' :: rest) = some (s.map Char.toNat, rest) := by
  intro s
  induction s with
  | nil =>
    intro fuel hf rest
    obtain ⟨f, rfl⟩ : ∃ f, fuel = f + 1 := ⟨fuel - 1, by omega⟩
    simp [parseJBody]
  | cons c s' ih =>
    intro fuel hf rest
    obtain ⟨f, rfl⟩ : ∃ f, fuel = f + 1 := ⟨fuel - 1, by omega⟩
    have hf' : s'.length < f := by simp at hf; omega
    have ihf := ih f hf'
    rw [List.flatMap_cons, List.append_assoc]
    by_cases h1 : c = '"'
    · subst h1
      have hch : ('"' : Char).toNat = 0x22 := by decide
      simp [jsonEscapeChar, parseJBody, ihf, hch]
    · by_cases h2 : c = '\\'
      · subst h2
        have hch : ('\\' : Char).toNat = 0x5c := by decide
        simp [jsonEscapeChar, h1, parseJBody, ihf, hch]
      · by_cases h3 : c = '\n'
        · subst h3
          have hch : ('\n' : Char).toNat = 0x0a := by decide
          simp [jsonEscapeChar, h1, h2, parseJBody, ihf, hch]
        · by_cases h4 : c = '\t'
          · subst h4
            have hch : ('\t' : Char).toNat = 0x09 := by decide
            simp [jsonEscapeChar, h1, h2, h3, parseJBody, ihf, hch]
          · by_cases h5 : c = '\r'
            · subst h5
              have hch : ('\r' : Char).toNat = 0x0d := by decide
              simp [jsonEscapeChar, h1, h2, h3, h4, parseJBody, ihf, hch]
            · by_cases h6 : c = '\x08'
              · subst h6
                have hch : ('\x08' : Char).toNat = 0x08 := by decide
                simp [jsonEscapeChar, h1, h2, h3, h4, h5, parseJBody, ihf, hch]
              · by_cases h7 : c = '\x0c'
                · subst h7
                  have hch : ('\x0c' : Char).toNat = 0x0c := by decide
                  simp [jsonEscapeChar, h1, h2, h3, h4, h5, h6, parseJBody, ihf, hch]
                · by_cases h8 : c.toNat < 0x20
                  · have he := hex4Val_encode c.toNat (by omega)
                    simp only [jsonEscapeChar, h1, h2, h3, h4, h5, h6, h7, h8, if_true,
                      if_false, hex4, List.cons_append, List.nil_append]
                    simp [parseJBody, he, ihf, if_pos (Or.inl (by omega : c.toNat < 0xd800))]
                  · by_cases h9 : c.toNat ≤ 0x7e
                    · simp only [jsonEscapeChar, h1, h2, h3, h4, h5, h6, h7, h8, h9,
                        if_true, if_false]
                      simp [parseJBody, h1, h2, ihf]
                    · by_cases h10 : c.toNat < 0x10000
                      · have hval := char_valid_nat c
                        have hcond : c.toNat < 0xd800 ∨ 0xe000 ≤ c.toNat := by omega
                        have he := hex4Val_encode c.toNat (by omega)
                        simp only [jsonEscapeChar, h1, h2, h3, h4, h5, h6, h7, h8, h9, h10,
                          if_true, if_false, hex4, List.cons_append, List.nil_append]
                        simp [parseJBody, he, ihf, if_pos hcond]
                      · have hval := char_valid_nat c
                        have hehi := hex4Val_encode (0xd800 + (c.toNat - 0x10000) / 0x400) (by omega)
                        have hr := Nat.mod_lt (c.toNat - 0x10000) (show 0 < 0x400 by omega)
                        have helo := hex4Val_encode (0xdc00 + (c.toNat - 0x10000) % 0x400) (by omega)
                        simp only [jsonEscapeChar, h1, h2, h3, h4, h5, h6, h7, h8, h9, h10,
                          if_true, if_false, hex4, List.cons_append, List.nil_append,
                          List.append_assoc]
                        rw [parseJBody_u_pair f _ _ _ _ _ _ _ _ _ _ _ hehi helo
                          ⟨by omega, by omega⟩ ⟨by omega, by omega⟩, ihf]
                        simp
                        omega

/-! Lemmas for the config-fingerprint round trip. -/


theorem one_le_jsonEscapeChar_length (c : Char) : 1 ≤ (jsonEscapeChar c).length := by
  by_cases h1 : c = '"'
  · simp [jsonEscapeChar, h1]
  by_cases h2 : c = '\\'
  · simp [jsonEscapeChar, h1, h2]
  by_cases h3 : c = '\n'
  · simp [jsonEscapeChar, h1, h2, h3]
  by_cases h4 : c = '\t'
  · simp [jsonEscapeChar, h1, h2, h3, h4]
  by_cases h5 : c = '\r'
  · simp [jsonEscapeChar, h1, h2, h3, h4, h5]
  by_cases h6 : c = '\x08'
  · simp [jsonEscapeChar, h1, h2, h3, h4, h5, h6]
  by_cases h7 : c = '\x0c'
  · simp [jsonEscapeChar, h1, h2, h3, h4, h5, h6, h7]
  by_cases h8 : c.toNat < 0x20
  · simp [jsonEscapeChar, h1, h2, h3, h4, h5, h6, h7, h8, hex4]
  by_cases h9 : c.toNat ≤ 0x7e
  · simp [jsonEscapeChar, h1, h2, h3, h4, h5, h6, h7, h8, h9]
  by_cases h10 : c.toNat < 0x10000
  · simp [jsonEscapeChar, h1, h2, h3, h4, h5, h6, h7, h8, h9, h10, hex4]
  · simp [jsonEscapeChar, h1, h2, h3, h4, h5, h6, h7, h8, h9, h10, hex4]

theorem length_le_flatMap_escape (s : List Char) :
    s.length ≤ (s.flatMap jsonEscapeChar).length := by
  induction s with
  | nil => simp
  | cons c t ih =>
    rw [List.flatMap_cons, List.length_append, List.length_cons]
    have := one_le_jsonEscapeChar_length c
    omega

theorem jsonQuote_eq_cons (t : String) :
    jsonQuote t = '"' :: (t.data.flatMap jsonEscapeChar ++ ['"']) := rfl

theorem jsonQuote_length (t : String) : t.data.length + 2 ≤ (jsonQuote t).length := by
  have h := length_le_flatMap_escape t.data
  rw [jsonQuote_eq_cons]
  simp only [List.length_cons, List.length_append, List.length_nil]
  omega

theorem parseJString_encode (t : String) (fuel : Nat) (hf : t.data.length < fuel)
    (rest : List Char) :
    parseJString fuel (jsonQuote t ++ rest) = some (t.data.map Char.toNat, rest) := by
  have h : jsonQuote t ++ rest = '"' :: (t.data.flatMap jsonEscapeChar ++ '"' :: rest) := by
    rw [jsonQuote_eq_cons]
    simp
  rw [h]
  simp only [parseJString, if_pos rfl]
  exact parseJBody_encode t.data fuel hf rest

theorem parseJStrList_encode :
    ∀ (cals : List String) (fuelStr fuelElems : Nat),
      (∀ c ∈ cals, c.data.length < fuelStr) → cals.length ≤ fuelElems →
      ∀ rest, parseJStrList fuelStr fuelElems (joinComma (cals.map jsonQuote) ++ ']' :: rest)
        = some (cals.map (fun s => s.data.map Char.toNat), rest) := by
  intro cals
  induction cals with
  | nil =>
    intro fuelStr fuelElems _ _ rest
    simp only [List.map_nil, joinComma, List.nil_append]
    exact parseJStrList.eq_1 fuelStr fuelElems rest
  | cons c cs ih =>
    intro fuelStr fuelElems hstr helems rest
    have hpos : 1 ≤ fuelElems := by
      have h' := helems
      simp only [List.length_cons] at h'
      omega
    obtain ⟨fe, rfl⟩ : ∃ fe, fuelElems = fe + 1 := ⟨fuelElems - 1, by omega⟩
    have hc : c.data.length < fuelStr := hstr c (List.mem_cons_self c cs)
    cases cs with
    | nil =>
      have hregion : joinComma ((c :: []).map jsonQuote) ++ ']' :: rest
          = jsonQuote c ++ ']' :: rest := by
        simp [joinComma]
      rw [hregion]
      have hside : ∀ r', jsonQuote c ++ ']' :: rest = ']' :: r' → False := by
        rw [jsonQuote_eq_cons]
        intro r' hh
        simp only [List.cons_append] at hh
        exact absurd (List.head_eq_of_cons_eq hh) (by decide)
      rw [parseJStrList.eq_2 fuelStr _ fe hside]
      rw [parseJString_encode c fuelStr hc (']' :: rest)]
      rfl
    | cons c2 cs' =>
      have hregion : joinComma ((c :: c2 :: cs').map jsonQuote) ++ ']' :: rest
          = jsonQuote c ++ (',' :: (joinComma ((c2 :: cs').map jsonQuote) ++ ']' :: rest)) := by
        simp [joinComma]
      rw [hregion]
      have hside : ∀ r', jsonQuote c ++ (',' :: (joinComma ((c2 :: cs').map jsonQuote) ++ ']' :: rest)) = ']' :: r' → False := by
        rw [jsonQuote_eq_cons]
        intro r' hh
        simp only [List.cons_append] at hh
        exact absurd (List.head_eq_of_cons_eq hh) (by decide)
      rw [parseJStrList.eq_2 fuelStr _ fe hside]
      rw [parseJString_encode c fuelStr hc _]
      have hrec := ih fuelStr fe (fun x hx => hstr x (List.mem_cons_of_mem c hx))
        (by simp only [List.length_cons] at helems ⊢; omega) rest
      show (match parseJStrList fuelStr fe (joinComma ((c2 :: cs').map jsonQuote) ++ ']' :: rest) with
        | some (ss, r3) => some ((c.data.map Char.toNat) :: ss, r3)
        | none => none) = some ((c :: c2 :: cs').map (fun s => s.data.map Char.toNat), rest)
      rw [hrec]
      simp



theorem natCharsAux_congr : ∀ (f1 f2 n : Nat), n < f1 → n < f2 →
    natCharsAux f1 n = natCharsAux f2 n := by
  intro f1
  induction f1 with
  | zero => intro f2 n h1 _; omega
  | succ g ihg =>
    intro f2 n h1 h2
    obtain ⟨g2, rfl⟩ : ∃ g2, f2 = g2 + 1 := ⟨f2 - 1, by omega⟩
    simp only [natCharsAux]
    by_cases hn : n < 10
    · simp [hn]
    · simp only [hn, if_false]
      rw [ihg g2 (n / 10) (by omega) (by omega)]

theorem natChars_spec (n : Nat) :
    natChars n = if n < 10 then [digitChar n]
      else natChars (n / 10) ++ [digitChar (n % 10)] := by
  unfold natChars
  rw [show natCharsAux (n + 1) n
      = if n < 10 then [digitChar n] else natCharsAux n (n / 10) ++ [digitChar (n % 10)]
    from rfl]
  by_cases hn : n < 10
  · rw [if_pos hn, if_pos hn]
  · rw [if_neg hn, if_neg hn,
      natCharsAux_congr n (n / 10 + 1) (n / 10) (by omega) (by omega)]

theorem digVal_digitChar : ∀ x, x < 10 → digVal (digitChar x) = some x := by decide

theorem natChars_digits (n : Nat) : ∀ c ∈ natChars n, (digVal c).isSome = true := by
  induction n using Nat.strong_induction_on with
  | _ n ih =>
    intro c hc
    rw [natChars_spec] at hc
    by_cases hn : n < 10
    · rw [if_pos hn] at hc
      simp at hc
      subst hc
      rw [digVal_digitChar n hn]
      rfl
    · rw [if_neg hn] at hc
      rcases List.mem_append.mp hc with h | h
      · exact ih (n / 10) (by omega) c h
      · simp at h
        subst h
        rw [digVal_digitChar (n % 10) (by omega)]
        rfl

theorem natChars_ne_nil (n : Nat) : natChars n ≠ [] := by
  rw [natChars_spec]
  by_cases hn : n < 10 <;> simp [hn]

theorem natChars_val (n : Nat) :
    (natChars n).foldl (fun acc c => acc * 10 + (digVal c).getD 0) 0 = n := by
  induction n using Nat.strong_induction_on with
  | _ n ih =>
    rw [natChars_spec]
    by_cases hn : n < 10
    · rw [if_pos hn]
      simp [digVal_digitChar n hn]
    · rw [if_neg hn]
      rw [List.foldl_append]
      rw [ih (n / 10) (by omega)]
      simp [digVal_digitChar (n % 10) (by omega)]
      omega

theorem takeWhile_append_all (p : Char → Bool) :
    ∀ (a b : List Char), (∀ x ∈ a, p x = true) →
      (a ++ b).takeWhile p = a ++ b.takeWhile p ∧ (a ++ b).dropWhile p = b.dropWhile p := by
  intro a
  induction a with
  | nil => simp
  | cons x a' ih =>
    intro b h
    have hx : p x = true := h x (List.mem_cons_self x a')
    have ⟨ht, hd⟩ := ih b (fun y hy => h y (List.mem_cons_of_mem x hy))
    constructor
    · rw [List.cons_append, List.takeWhile_cons_of_pos hx, ht, List.cons_append]
    · rw [List.cons_append, List.dropWhile_cons_of_pos hx, hd]

theorem head_fail_takeDrop (p : Char → Bool) (b : List Char)
    (hb : ∀ c, b.head? = some c → p c = false) :
    b.takeWhile p = [] ∧ b.dropWhile p = b := by
  cases b with
  | nil => simp
  | cons x t =>
    have hx := hb x rfl
    constructor
    · rw [List.takeWhile_cons_of_neg (by simp [hx])]
    · rw [List.dropWhile_cons_of_neg (by simp [hx])]

theorem parseNatChars_encode (n : Nat) (rest : List Char)
    (hrest : ∀ c, rest.head? = some c → digVal c = none) :
    parseNatChars (natChars n ++ rest) = some (n, rest) := by
  have hall : ∀ x ∈ natChars n, ((digVal x).isSome : Bool) = true := natChars_digits n
  have h1 := takeWhile_append_all (fun c => (digVal c).isSome) (natChars n) rest hall
  have h2 := head_fail_takeDrop (fun c => (digVal c).isSome) rest
    (by intro c hc; show (digVal c).isSome = false; rw [hrest c hc]; rfl)
  simp only [parseNatChars, h1.1, h1.2, h2.1, h2.2, List.append_nil]
  rw [if_neg (natChars_ne_nil n), natChars_val]

theorem parseIntChars_encode (i : Int) (rest : List Char)
    (hrest : ∀ c, rest.head? = some c → digVal c = none) :
    parseIntChars (intChars i ++ rest) = some (i, rest) := by
  by_cases hi : i < 0
  · have hr : intChars i = '-' :: natChars i.natAbs := by
      simp [intChars, hi]
    rw [hr, List.cons_append]
    show (if ('-' : Char) = '-' then
        (parseNatChars (natChars i.natAbs ++ rest)).map (fun p => (-(p.1 : Int), p.2))
      else (parseNatChars ('-' :: (natChars i.natAbs ++ rest))).map
        (fun p => ((p.1 : Int), p.2))) = some (i, rest)
    rw [if_pos rfl, parseNatChars_encode i.natAbs rest hrest]
    simp only [Option.map_some']
    have habs : -((i.natAbs : Int)) = i := by omega
    rw [habs]
  · have hrepr : intChars i = natChars i.toNat := by
      simp [intChars, hi]
    rw [hrepr]
    obtain ⟨d, t, hdt⟩ : ∃ d t, natChars i.toNat = d :: t := by
      cases h : natChars i.toNat with
      | nil => exact absurd h (natChars_ne_nil _)
      | cons d t => exact ⟨d, t, rfl⟩
    have hdig : (digVal d).isSome = true := by
      apply natChars_digits i.toNat
      rw [hdt]
      exact List.mem_cons_self d t
    have hnd : d ≠ '-' := by
      intro hd
      subst hd
      simp [digVal] at hdig
    rw [hdt, List.cons_append]
    simp only [parseIntChars, if_neg hnd]
    rw [← List.cons_append, ← hdt, parseNatChars_encode i.toNat rest hrest]
    simp only [Option.map_some']
    have hni : ((i.toNat : Int)) = i := by omega
    rw [hni]

theorem dropLit_encode (lit rest : List Char) : dropLit lit (lit ++ rest) = some rest := by
  unfold dropLit
  rw [List.take_left, if_pos rfl, List.drop_left]

theorem mem_le_joinComma : ∀ (ss : List (List Char)) (x : List Char), x ∈ ss →
    x.length ≤ (joinComma ss).length := by
  intro ss
  induction ss with
  | nil => simp
  | cons a t ih =>
    intro x hx
    cases t with
    | nil =>
      simp at hx
      subst hx
      simp [joinComma]
    | cons b t' =>
      simp only [joinComma, List.length_append, List.length_cons]
      rcases List.mem_cons.mp hx with rfl | hx'
      · omega
      · have := ih x hx'
        omega

theorem count_le_joinComma : ∀ (ss : List (List Char)),
    (∀ x ∈ ss, 1 ≤ x.length) → ss.length ≤ (joinComma ss).length := by
  intro ss
  induction ss with
  | nil => simp
  | cons a t ih =>
    intro h
    cases t with
    | nil =>
      simp only [List.length_cons, List.length_nil, joinComma]
      have := h a (List.mem_cons_self a [])
      omega
    | cons b t' =>
      simp only [joinComma, List.length_append, List.length_cons]
      have h1 := h a (List.mem_cons_self a _)
      have h2 := ih (fun x hx => h x (List.mem_cons_of_mem a hx))
      simp only [List.length_cons] at h2
      omega



theorem serializeConfig_decomp (t : String) (cals : List String) (p f : Int) :
    serializeConfig t cals p f
      = "\x7b\"calendars\":[".data
          ++ (joinComma ((sortedStrings cals).map jsonQuote)
            ++ ']' :: (",\"future_days\":".data
              ++ (intChars f
                ++ (',' :: "\"past_days\":".data
                  ++ (intChars p
                    ++ (',' :: "\"title\":".data
                      ++ (jsonQuote t ++ ['}']))))))) := by
  unfold serializeConfig
  rw [show "],\"future_days\":".data = ']' :: ",\"future_days\":".data from rfl,
      show (",\"past_days\":".data : List Char) = ',' :: "\"past_days\":".data from rfl,
      show (",\"title\":".data : List Char) = ',' :: "\"title\":".data from rfl,
      show ("\x7d".data : List Char) = ['}'] from rfl]
  simp only [List.append_assoc, List.cons_append]

theorem parsePayload_encode (t : String) (cals : List String) (p f : Int) :
    parsePayload (serializeConfig t cals p f)
      = some ((sortedStrings cals).map (fun s => s.data.map Char.toNat), f, p,
          t.data.map Char.toNat) := by
  have hdecomp := serializeConfig_decomp t cals p f
  set J := joinComma ((sortedStrings cals).map jsonQuote) with hJ
  set R2 := ",\"future_days\":".data
      ++ (intChars f
        ++ (',' :: "\"past_days\":".data
          ++ (intChars p
            ++ (',' :: "\"title\":".data
              ++ (jsonQuote t ++ ['}']))))) with hR2
  have h1 : dropLit "\x7b\"calendars\":[".data (serializeConfig t cals p f)
      = some (J ++ ']' :: R2) := by
    rw [hdecomp]
    exact dropLit_encode _ _
  have hstr : ∀ c ∈ sortedStrings cals, c.data.length < (J ++ ']' :: R2).length + 1 := by
    intro c hc
    have hq := jsonQuote_length c
    have hm : (jsonQuote c).length ≤ J.length := by
      apply mem_le_joinComma
      exact List.mem_map_of_mem jsonQuote hc
    rw [List.length_append]
    omega
  have helems : (sortedStrings cals).length ≤ (J ++ ']' :: R2).length := by
    have h1' : ∀ x ∈ (sortedStrings cals).map jsonQuote, 1 ≤ x.length := by
      intro x hx
      obtain ⟨s, _, rfl⟩ := List.mem_map.mp hx
      have := jsonQuote_length s
      omega
    have h2' := count_le_joinComma _ h1'
    rw [List.length_map, ← hJ] at h2'
    rw [List.length_append]
    omega
  have h2 : parseJStrList ((J ++ ']' :: R2).length + 1) (J ++ ']' :: R2).length
      (J ++ ']' :: R2)
      = some ((sortedStrings cals).map (fun s => s.data.map Char.toNat), R2) :=
    parseJStrList_encode (sortedStrings cals) _ _ hstr helems R2
  have h3 : dropLit ",\"future_days\":".data R2
      = some (intChars f
          ++ (',' :: "\"past_days\":".data
            ++ (intChars p
              ++ (',' :: "\"title\":".data
                ++ (jsonQuote t ++ ['}']))))) := by
    rw [hR2]
    exact dropLit_encode _ _
  have h4 : parseIntChars (intChars f
      ++ (',' :: "\"past_days\":".data
        ++ (intChars p
          ++ (',' :: "\"title\":".data
            ++ (jsonQuote t ++ ['}'])))))
      = some (f, ',' :: "\"past_days\":".data
          ++ (intChars p
            ++ (',' :: "\"title\":".data
              ++ (jsonQuote t ++ ['}'])))) := by
    apply parseIntChars_encode
    intro c hc
    simp only [List.cons_append, List.head?_cons, Option.some.injEq] at hc
    subst hc
    decide
  have h5 : dropLit ",\"past_days\":".data
      (',' :: "\"past_days\":".data
        ++ (intChars p
          ++ (',' :: "\"title\":".data
            ++ (jsonQuote t ++ ['}']))))
      = some (intChars p
          ++ (',' :: "\"title\":".data
            ++ (jsonQuote t ++ ['}']))) := by
    rw [show (',' :: "\"past_days\":".data
        ++ (intChars p
          ++ (',' :: "\"title\":".data
            ++ (jsonQuote t ++ ['}']))) : List Char)
      = ",\"past_days\":".data
        ++ (intChars p
          ++ (',' :: "\"title\":".data
            ++ (jsonQuote t ++ ['}']))) from by simp]
    exact dropLit_encode _ _
  have h6 : parseIntChars (intChars p
      ++ (',' :: "\"title\":".data
        ++ (jsonQuote t ++ ['}'])))
      = some (p, ',' :: "\"title\":".data ++ (jsonQuote t ++ ['}'])) := by
    apply parseIntChars_encode
    intro c hc
    simp only [List.cons_append, List.head?_cons, Option.some.injEq] at hc
    subst hc
    decide
  have h7 : dropLit ",\"title\":".data
      (',' :: "\"title\":".data ++ (jsonQuote t ++ ['}']))
      = some (jsonQuote t ++ ['}']) := by
    rw [show (',' :: "\"title\":".data ++ (jsonQuote t ++ ['}']) : List Char)
      = ",\"title\":".data ++ (jsonQuote t ++ ['}']) from by simp]
    exact dropLit_encode _ _
  have h8 : parseJString ((jsonQuote t ++ ['}']).length + 1) (jsonQuote t ++ ['}'])
      = some (t.data.map Char.toNat, ['}']) := by
    apply parseJString_encode
    have := jsonQuote_length t
    rw [List.length_append]
    omega
  simp only [parsePayload, h1, h2, h3, h4, h5, h6, h7, h8, if_pos rfl, if_true]



theorem codes_inj : Function.Injective (fun s : String => s.data.map Char.toNat) := by
  intro a b h
  apply String.ext
  exact List.map_injective_iff.mpr char_toNat_inj h

theorem serializeConfig_inj (t1 t2 : String) (c1 c2 : List String) (p1 p2 f1 f2 : Int)
    (h : serializeConfig t1 c1 p1 f1 = serializeConfig t2 c2 p2 f2) :
    t1 = t2 ∧ sortedStrings c1 = sortedStrings c2 ∧ p1 = p2 ∧ f1 = f2 := by
  have hp := parsePayload_encode t1 c1 p1 f1
  have hq := parsePayload_encode t2 c2 p2 f2
  rw [h, hq] at hp
  simp only [Option.some.injEq, Prod.mk.injEq] at hp
  obtain ⟨hcal, hf, hpd, ht⟩ := hp
  refine ⟨codes_inj ht.symm, ?_, hpd.symm, hf.symm⟩
  exact List.map_injective_iff.mpr codes_inj hcal.symm

theorem sortedStrings_sorted (l : List String) :
    (sortedStrings l).Pairwise (· ≤ ·) := by
  have htrans : ∀ a b c : String,
      (fun a b : String => decide (a ≤ b)) a b →
      (fun a b : String => decide (a ≤ b)) b c →
      (fun a b : String => decide (a ≤ b)) a c := by
    intro a b c h1 h2
    simp only [decide_eq_true_eq] at *
    exact le_trans h1 h2
  have htotal : ∀ a b : String,
      ((fun a b : String => decide (a ≤ b)) a b
        || (fun a b : String => decide (a ≤ b)) b a) := by
    intro a b
    simp only [Bool.or_eq_true, decide_eq_true_eq]
    exact le_total a b
  have h := List.sorted_mergeSort htrans htotal l
  exact h.imp (fun hab => of_decide_eq_true hab)

theorem sortedStrings_perm (l : List String) : List.Perm (sortedStrings l) l :=
  List.mergeSort_perm l _

theorem sortedStrings_eq_of_perm {l1 l2 : List String} (h : List.Perm l1 l2) :
    sortedStrings l1 = sortedStrings l2 :=
  List.eq_of_perm_of_sorted
    ((sortedStrings_perm l1).trans (h.trans (sortedStrings_perm l2).symm))
    (sortedStrings_sorted l1) (sortedStrings_sorted l2)

theorem mem_sortedStrings {x : String} {l : List String} :
    x ∈ sortedStrings l ↔ x ∈ l := List.mem_mergeSort

/-- C5: the config fingerprint is invariant under permutation of the
calendar-id list, and — with the cryptographic digest assumed
collision-free, i.e. injective — equal fingerprints force equal
titles, day windows, and calendar-id membership, so any change to
title, past_days, future_days, or calendar membership changes the
fingerprint. -/
theorem claim_C5 (sha : String → String) (hinj : Function.Injective sha)
    (t t' : String) (c c' : List String) (p p' f f' : Int) :
    (List.Perm c c' → hashConfig sha t c p f = hashConfig sha t c' p f) ∧
    (hashConfig sha t c p f = hashConfig sha t' c' p' f' →
      t = t' ∧ p = p' ∧ f = f' ∧ (∀ x, x ∈ c ↔ x ∈ c')) := by
  constructor
  · intro hperm
    unfold hashConfig
    congr 2
    unfold serializeConfig
    rw [sortedStrings_eq_of_perm hperm]
  · intro h
    unfold hashConfig at h
    have hser := hinj h
    have hdata : serializeConfig t c p f = serializeConfig t' c' p' f' :=
      congrArg String.data hser
    obtain ⟨ht, hsort, hp, hf⟩ := serializeConfig_inj t t' c c' p p' f f' hdata
    refine ⟨ht, hp, hf, ?_⟩
    intro x
    rw [← mem_sortedStrings (l := c), hsort, mem_sortedStrings]

/-- C5 witness: reordering the calendar ids leaves the fingerprint
unchanged, and the fingerprint equality recovers equal membership. -/
theorem claim_C5_witness :
    hashConfig id "T" ["b", "a"] 7 30 = hashConfig id "T" ["a", "b"] 7 30 ∧
    (∀ x, x ∈ (["b", "a"] : List String) ↔ x ∈ (["a", "b"] : List String)) := by
  have h1 := (claim_C5 id (fun a b h => h) "T" "T" ["b", "a"] ["a", "b"] 7 7 30 30).1
    ((List.Perm.swap "b" "a" []).symm)
  have h2 := (claim_C5 id (fun a b h => h) "T" "T" ["b", "a"] ["a", "b"] 7 7 30 30).2 h1
  exact ⟨h1, h2.2.2.2⟩

end ICalFeed
